import Mathlib

/-!
Verification of the NGSI entity / series layer of kitt4sme.fipy
(`fipy/ngsi/entity.py`, `fipy/dict.py`), shallowly embedded in Lean.

JSON values parsed by Python's `json` package are modelled by the
inductive type `JVal`; Python dictionaries are modelled as association
lists whose operational behaviour (first-occurrence lookup,
replace-in-place insertion, insertion-order iteration) matches CPython
dicts built without duplicate keys.
-/

namespace Fipy

/-- A JSON value as produced by Python's `json.loads`: `None`, `bool`,
`int`, `float` (modelled as a rational: the code never does float
arithmetic, it only carries parsed numbers around), `str`, `list`,
`dict`. Python's parser keeps `int` and `float` apart, so the model
does too. -/
inductive JVal where
  | jnull
  | jbool (b : Bool)
  | jint (n : Int)
  | jfloat (q : Rat)
  | jstr (s : String)
  | jarr (elems : List JVal)
  | jobj (fields : List (String × JVal))
  deriving Repr

mutual

/-- Structural equality test on JSON values. -/
def JVal.beq : JVal → JVal → Bool
  | .jnull, .jnull => true
  | .jbool a, .jbool b => a == b
  | .jint a, .jint b => a == b
  | .jfloat a, .jfloat b => a == b
  | .jstr a, .jstr b => a == b
  | .jarr xs, .jarr ys => JVal.beqList xs ys
  | .jobj xs, .jobj ys => JVal.beqFields xs ys
  | _, _ => false

/-- Structural equality test on JSON arrays. -/
def JVal.beqList : List JVal → List JVal → Bool
  | [], [] => true
  | x :: xs, y :: ys => JVal.beq x y && JVal.beqList xs ys
  | _, _ => false

/-- Structural equality test on JSON object field lists. -/
def JVal.beqFields : List (String × JVal) → List (String × JVal) → Bool
  | [], [] => true
  | (k₁, v₁) :: xs, (k₂, v₂) :: ys =>
      k₁ == k₂ && JVal.beq v₁ v₂ && JVal.beqFields xs ys
  | _, _ => false

end

mutual

theorem JVal.beq_refl : ∀ a : JVal, JVal.beq a a = true
  | .jnull => rfl
  | .jbool a => by simp [JVal.beq]
  | .jint a => by simp [JVal.beq]
  | .jfloat a => by simp [JVal.beq]
  | .jstr a => by simp [JVal.beq]
  | .jarr xs => by simp [JVal.beq, JVal.beqList_refl xs]
  | .jobj xs => by simp [JVal.beq, JVal.beqFields_refl xs]

theorem JVal.beqList_refl : ∀ xs : List JVal, JVal.beqList xs xs = true
  | [] => rfl
  | x :: xs => by simp [JVal.beqList, JVal.beq_refl x, JVal.beqList_refl xs]

theorem JVal.beqFields_refl :
    ∀ xs : List (String × JVal), JVal.beqFields xs xs = true
  | [] => rfl
  | (k, v) :: xs => by
      simp [JVal.beqFields, JVal.beq_refl v, JVal.beqFields_refl xs]

end

mutual

theorem JVal.beq_eq : ∀ a b : JVal, JVal.beq a b = true → a = b
  | .jnull, .jnull, _ => rfl
  | .jbool a, .jbool b, h => by simp [JVal.beq] at h; simp [h]
  | .jint a, .jint b, h => by simp [JVal.beq] at h; simp [h]
  | .jfloat a, .jfloat b, h => by simp [JVal.beq] at h; simp [h]
  | .jstr a, .jstr b, h => by simp [JVal.beq] at h; simp [h]
  | .jarr xs, .jarr ys, h => by
      simp only [JVal.beq] at h
      simp [JVal.beqList_eq xs ys h]
  | .jobj xs, .jobj ys, h => by
      simp only [JVal.beq] at h
      simp [JVal.beqFields_eq xs ys h]

theorem JVal.beqList_eq : ∀ xs ys : List JVal, JVal.beqList xs ys = true → xs = ys
  | [], [], _ => rfl
  | x :: xs, y :: ys, h => by
      simp only [JVal.beqList, Bool.and_eq_true] at h
      simp [JVal.beq_eq x y h.1, JVal.beqList_eq xs ys h.2]

theorem JVal.beqFields_eq :
    ∀ xs ys : List (String × JVal), JVal.beqFields xs ys = true → xs = ys
  | [], [], _ => rfl
  | (k₁, v₁) :: xs, (k₂, v₂) :: ys, h => by
      simp only [JVal.beqFields, Bool.and_eq_true, beq_iff_eq] at h
      simp [h.1.1, JVal.beq_eq v₁ v₂ h.1.2, JVal.beqFields_eq xs ys h.2]

end

instance : DecidableEq JVal := fun a b =>
  if h : JVal.beq a b = true then .isTrue (JVal.beq_eq a b h)
  else .isFalse (fun he => h (he ▸ JVal.beq_refl a))

/-- A Python dict with string keys, as an insertion-ordered association
list. -/
abbrev PyDict := List (String × JVal)

/-- `d.get(k)`: first-occurrence lookup, `None`-as-`none` when the key
is missing. -/
def alookup {κ α : Type} [DecidableEq κ] : List (κ × α) → κ → Option α
  | [], _ => none
  | (k₁, v) :: rest, k => if k₁ = k then some v else alookup rest k

/-- `d[k] = v`: replace the value in place when the key exists
(keeping its position, as CPython dicts do), append otherwise. -/
def ainsert {κ α : Type} [DecidableEq κ] : List (κ × α) → κ → α → List (κ × α)
  | [], k, v => [(k, v)]
  | (k₁, v₁) :: rest, k, v =>
      if k₁ = k then (k₁, v) :: rest else (k₁, v₁) :: ainsert rest k v

/-! ## Attribute type system (`fipy/ngsi/entity.py`, classes `Attr`,
`FloatAttr`, `TextAttr`, `BoolAttr`, `ArrayAttr`, `StructuredValueAttr`,
and `json_val_to_attr`). -/

/-- The five concrete `Attr` subclasses.  In the Python code an
attribute's class is what fixes its value type, so the class of an
attribute instance is recoverable from which value shape it holds. -/
inductive AttrKind where
  | number
  | text
  | boolean
  | array
  | structured
  deriving Repr, DecidableEq

/-- The default NGSI `type` tag each `Attr` subclass declares. -/
def AttrKind.tag : AttrKind → String
  | .number => "Number"
  | .text => "Text"
  | .boolean => "Boolean"
  | .array => "Array"
  | .structured => "StructuredValue"

/-- The value slot of an `Attr` subclass instance: `float` for
`FloatAttr` (pydantic coerces an `int` input to `float`, so a `Rat`
payload), `str` for `TextAttr`, `bool` for `BoolAttr`, `List` for
`ArrayAttr` and `Dict` for `StructuredValueAttr`. -/
inductive AttrValue where
  | num (q : Rat)
  | text (s : String)
  | bool (b : Bool)
  | arr (elems : List JVal)
  | struct (fields : List (String × JVal))
  deriving Repr, DecidableEq

/-- Which `Attr` subclass an attribute instance belongs to. -/
def AttrValue.kind : AttrValue → AttrKind
  | .num _ => .number
  | .text _ => .text
  | .bool _ => .boolean
  | .arr _ => .array
  | .struct _ => .structured

/-- An NGSI attribute instance: `type: Optional[str]` plus the typed
value.  The subclass (hence the value shape) is `value.kind`. -/
structure Attr where
  type : Option String
  value : AttrValue
  deriving Repr, DecidableEq

/-- Python `==` between an attribute's stored value and the raw JSON
value it was built from.  Mirrors CPython numeric equality, under which
an `int` and the `float` it was coerced to compare equal. -/
def AttrValue.eqJVal : AttrValue → JVal → Bool
  | .num q, .jint n => q == (n : Rat)
  | .num q, .jfloat p => q == p
  | .text s, .jstr t => s == t
  | .bool b, .jbool c => b == c
  | .arr xs, .jarr ys => xs == ys
  | .struct kvs, .jobj kvs₂ => kvs == kvs₂
  | _, _ => false

/-- `json_val_to_attr` (entity.py:152-188).  The Python code looks the
exact runtime class of `jval` up in `ctor_map` (so `bool`, a subclass
of `int`, is dispatched to `BoolAttr`, never to `FloatAttr`) and calls
the subclass `new`; a `KeyError` (for `None` or any unmapped class)
yields `None`.  `FloatAttr.new` on an `int` stores the coerced
`float`. -/
def json_val_to_attr : JVal → Option Attr
  | .jnull => none
  | .jbool b => some ⟨some "Boolean", .bool b⟩
  | .jint n => some ⟨some "Number", .num (n : Rat)⟩
  | .jfloat q => some ⟨some "Number", .num q⟩
  | .jstr s => some ⟨some "Text", .text s⟩
  | .jarr xs => some ⟨some "Array", .arr xs⟩
  | .jobj kvs => some ⟨some "StructuredValue", .struct kvs⟩

/-! ## Entity model (`fipy/ngsi/entity.py`, class `BaseEntity`).

A concrete `BaseEntity` subclass is modelled by a `Schema`: the bound
NGSI type string (the subclass `type` class attribute) plus the
declared attribute fields — name and `Attr` subclass — in declaration
order.  Every declared attribute field is `Optional[...]`, defaulting
to `None`, as in the repository's subclasses (e.g. `BotEntity.speed`).

Pydantic validation errors (exceptions) are modelled as `.error`;
the `Optional` results of `from_raw`/`from_raw_kv` as `Option` inside
`Except`.  Of pydantic's input coercions the model keeps the ones
NGSI wire values exercise (exact JSON shapes, plus int-to-float); the
exotic string-to-number style coercions are not modelled. -/

/-- A `BaseEntity` subclass: its bound `type` string and its declared
attribute fields in declaration order. -/
structure Schema where
  etype : String
  attrs : List (String × AttrKind)
  deriving Repr, DecidableEq

/-- An instance of a `BaseEntity` subclass: `id`, `type`, and one slot
per declared attribute in declaration order (`none` = the field holds
Python `None`). -/
structure Entity where
  id : String
  type : String
  attrs : List (String × Option Attr)
  deriving Repr, DecidableEq

/-- `BaseEntity._has_same_ngsi_type` (entity.py:270-275):
`raw_entity.get('type', '') == cls(id='').type`.  A present non-string
value never equals the bound string under Python `==`. -/
def hasSameNgsiType (s : Schema) (raw : PyDict) : Bool :=
  match alookup raw "type" with
  | some (.jstr t) => t == s.etype
  | some _ => false
  | none => "" == s.etype

/-- Pydantic validation of a declared attribute's `value` slot against
the `Attr` subclass bound to the field. -/
def parseAttrValue (k : AttrKind) (v : JVal) : Except String AttrValue :=
  match k, v with
  | .number, .jint n => .ok (.num (n : Rat))
  | .number, .jfloat q => .ok (.num q)
  | .text, .jstr s => .ok (.text s)
  | .boolean, .jbool b => .ok (.bool b)
  | .array, .jarr xs => .ok (.arr xs)
  | .structured, .jobj kvs => .ok (.struct kvs)
  | _, _ => .error "validation error: wrong value shape"

/-- Pydantic parse of one declared attribute field from its raw JSON
value: `None` is accepted by the `Optional` field; a dict is parsed as
the `Attr` subclass — `type` from the dict when given (`Optional[str]`,
class default tag when the key is absent), `value` required and
validated; anything else fails validation. -/
def parseAttr (k : AttrKind) (v : JVal) : Except String (Option Attr) :=
  match v with
  | .jnull => .ok none
  | .jobj kvs => do
      let t ← match alookup kvs "type" with
              | none => .ok (some k.tag)
              | some .jnull => .ok none
              | some (.jstr t) => .ok (some t)
              | some _ => .error "validation error: type is not a str"
      let val ← match alookup kvs "value" with
                | none => .error "validation error: value field required"
                | some raw => parseAttrValue k raw
      .ok (some ⟨t, val⟩)
  | _ => .error "validation error: attribute is not a dict"

/-- One declared field on the `from_raw` path: looked up in the raw
dict (absent means the `Optional` default `None`) and parsed. -/
def parseSlot (raw : PyDict) (n : String) (k : AttrKind) :
    Except String (Option Attr) :=
  match alookup raw n with
  | none => .ok none
  | some v => parseAttr k v

/-- The declared-attribute slots `cls(**raw_entity)` fills in on the
`from_raw` path, in declaration order. -/
def buildAttrsFromRaw (raw : PyDict) :
    List (String × AttrKind) → Except String (List (String × Option Attr))
  | [] => .ok []
  | (n, k) :: rest =>
      match parseSlot raw n k, buildAttrsFromRaw raw rest with
      | .ok a, .ok tail => .ok ((n, a) :: tail)
      | .error m, _ => .error m
      | .ok _, .error m => .error m

/-- Pydantic validation of the required `id: str` field. -/
def parseIdField (raw : PyDict) : Except String String :=
  match alookup raw "id" with
  | some (.jstr i) => .ok i
  | some _ => .error "validation error: id is not a str"
  | none => .error "validation error: id field required"

/-- Pydantic validation of the `type: str` field, whose subclass
default is the bound type string. -/
def parseTypeField (s : Schema) (raw : PyDict) : Except String String :=
  match alookup raw "type" with
  | none => .ok s.etype
  | some (.jstr t) => .ok t
  | some _ => .error "validation error: type is not a str"

/-- `BaseEntity.from_raw` (entity.py:277-299): `None` when the raw
NGSI type disagrees with the schema's bound type, otherwise
`cls(**raw_entity)` — `id` required, declared attributes parsed,
undeclared keys ignored by pydantic. -/
def from_raw (s : Schema) (raw : PyDict) : Except String (Option Entity) :=
  if hasSameNgsiType s raw then
    match parseIdField raw, parseTypeField s raw, buildAttrsFromRaw raw s.attrs with
    | .ok i, .ok t, .ok as => .ok (some ⟨i, t, as⟩)
    | .error m, _, _ => .error m
    | .ok _, .error m, _ => .error m
    | .ok _, .ok _, .error m => .error m
  else .ok none

/-- The fields dict `entity_kv_to_entity_dict` (entity.py:229-255)
builds: `id` and `type` defaulted to `''`, plus, for every other key
in iteration order, the inferred attribute when inference succeeds. -/
structure KVFields where
  id : JVal
  type : JVal
  attrs : List (String × Attr)
  deriving Repr, DecidableEq

/-- `entity_kv_to_entity_dict` (entity.py:229-255). -/
def entity_kv_to_entity_dict (repr : PyDict) : KVFields :=
  { id := (alookup repr "id").getD (.jstr "")
    type := (alookup repr "type").getD (.jstr "")
    attrs := repr.filterMap (fun p =>
      if p.1 = "id" ∨ p.1 = "type" then none
      else (json_val_to_attr p.2).map (fun a => (p.1, a))) }

/-- One declared field on the `from_raw_kv` path: the fields dict
holds ready-made `Attr` instances, which pydantic accepts only for a
field declared with that same `Attr` subclass. -/
def kvSlot (fields : List (String × Attr)) (n : String) (k : AttrKind) :
    Except String (Option Attr) :=
  match alookup fields n with
  | none => .ok none
  | some a =>
      if a.value.kind = k then .ok (some a)
      else .error "validation error: wrong attribute class"

/-- The declared-attribute slots `cls(**fields)` fills in on the
`from_raw_kv` path, in declaration order. -/
def buildAttrsFromKv (fields : List (String × Attr)) :
    List (String × AttrKind) → Except String (List (String × Option Attr))
  | [] => .ok []
  | (n, k) :: rest =>
      match kvSlot fields n k, buildAttrsFromKv fields rest with
      | .ok a, .ok tail => .ok ((n, a) :: tail)
      | .error m, _ => .error m
      | .ok _, .error m => .error m

/-- Pydantic validation of a string field given an already-computed
value from the fields dict. -/
def parseStrVal (v : JVal) : Except String String :=
  match v with
  | .jstr i => .ok i
  | _ => .error "validation error: not a str"

/-- `BaseEntity.from_raw_kv` (entity.py:301-324): `None` on an NGSI
type mismatch, otherwise `cls(**entity_kv_to_entity_dict(raw))`. -/
def from_raw_kv (s : Schema) (repr : PyDict) : Except String (Option Entity) :=
  if hasSameNgsiType s repr then
    let fields := entity_kv_to_entity_dict repr
    match parseStrVal fields.id, parseStrVal fields.type,
          buildAttrsFromKv fields.attrs s.attrs with
    | .ok i, .ok t, .ok as => .ok (some ⟨i, t, as⟩)
    | .error m, _, _ => .error m
    | .ok _, .error m, _ => .error m
    | .ok _, .ok _, .error m => .error m
  else .ok none

/-! Pydantic v1's `json(exclude_none=True)` filters recursively: in
`BaseModel._get_value` a list value drops its `None` elements and a
dict value drops its `None`-valued keys, at every nesting level, before
`json.dumps` runs.  The `stripNone` family below models that filter on
raw JSON values. -/

mutual

/-- The recursive `exclude_none` filter on one JSON value. -/
def JVal.stripNone : JVal → JVal
  | .jarr xs => .jarr (JVal.stripNoneList xs)
  | .jobj kvs => .jobj (JVal.stripNoneFields kvs)
  | v => v

/-- The filter on a list value: `None` elements are dropped, the rest
filtered recursively. -/
def JVal.stripNoneList : List JVal → List JVal
  | [] => []
  | .jnull :: rest => JVal.stripNoneList rest
  | v :: rest => JVal.stripNone v :: JVal.stripNoneList rest

/-- The filter on a dict value: `None`-valued keys are dropped, the
remaining values filtered recursively. -/
def JVal.stripNoneFields : List (String × JVal) → List (String × JVal)
  | [] => []
  | (_, .jnull) :: rest => JVal.stripNoneFields rest
  | (k, v) :: rest => (k, JVal.stripNone v) :: JVal.stripNoneFields rest

end

/-- How pydantic serializes one attribute instance under
`exclude_none=True`: field order is `type` then `value` (declaration
order in `Attr`), a `None` type tag is omitted, and the recursive
`exclude_none` filter strips JSON nulls nested inside `List`/`Dict`
values (scalar values carry no nulls). -/
def AttrValue.toJVal : AttrValue → JVal
  | .num q => .jfloat q
  | .text s => .jstr s
  | .bool b => .jbool b
  | .arr xs => .jarr (JVal.stripNoneList xs)
  | .struct kvs => .jobj (JVal.stripNoneFields kvs)

/-- What is left of an attribute value after serialization and
re-parsing: the nested nulls are gone. -/
def AttrValue.strip : AttrValue → AttrValue
  | .num q => .num q
  | .text s => .text s
  | .bool b => .bool b
  | .arr xs => .arr (JVal.stripNoneList xs)
  | .struct kvs => .struct (JVal.stripNoneFields kvs)

/-- An attribute after a serialize/re-parse round trip. -/
def Attr.strip (a : Attr) : Attr :=
  ⟨a.type, a.value.strip⟩


/-- JSON object an `Attr` instance serializes to. -/
def Attr.toJVal (a : Attr) : JVal :=
  .jobj ((match a.type with
          | some t => [("type", JVal.jstr t)]
          | none => []) ++ [("value", a.value.toJVal)])

/-- The pydantic field dump of an entity before the `exclude_none`
filter: `id`, `type`, then the declared attributes in declaration
order, `none` marking fields whose value is Python `None`. -/
def Entity.dumpFields (e : Entity) : List (String × Option JVal) :=
  ("id", some (.jstr e.id)) :: ("type", some (.jstr e.type)) ::
    e.attrs.map (fun p => (p.1, p.2.map Attr.toJVal))

/-- `BaseEntity.to_json` (entity.py:267-268): `self.json(exclude_none=True)`,
modelled at the JSON-object level (`json.dumps` text and its parse are
inverse on this object, so claims about the emitted document are stated
on the ordered object itself).  The `exclude_none` filter acts twice:
unset attribute fields are omitted here, and nulls nested inside
attribute values were already stripped by `Attr.toJVal`. -/
def Entity.to_json (e : Entity) : List (String × JVal) :=
  e.dumpFields.filterMap (fun p => p.2.map (fun v => (p.1, v)))

/-- An entity after a serialize/re-parse round trip: same identity,
type and attribute slots, with nested nulls stripped from every present
attribute value. -/
def Entity.stripNested (e : Entity) : Entity :=
  ⟨e.id, e.type, e.attrs.map (fun p => (p.1, p.2.map Attr.strip))⟩

/-! ## Timestamp parsing.

`EntitySeries.from_quantumleap_format` parses each index entry with the
standard library's `datetime.fromisoformat` (not repository code).  The
model below implements the ISO-8601 subset that function accepts for
the shapes this repository exchanges with Quantum Leap:
`YYYY-MM-DD`, optionally followed by one separator character and
`HH:MM:SS`, an optional `.fff`/`.ffffff` fraction, and an optional
`+HH:MM`/`-HH:MM` offset; dates and times are range-checked as Python
does.  Parse failure is `none`, as a stand-in for `ValueError`. -/

/-- A parsed `datetime.datetime`. -/
structure PyDateTime where
  year : Nat
  month : Nat
  day : Nat
  hour : Nat
  minute : Nat
  second : Nat
  microsecond : Nat
  offsetMinutes : Option Int
  deriving Repr, DecidableEq

/-- Decimal digit value of a character, if any. -/
def digitVal (c : Char) : Option Nat :=
  if c.isDigit then some (c.toNat - 48) else none

/-- Read exactly two decimal digits. -/
def read2 : List Char → Option (Nat × List Char)
  | a :: b :: rest => do
      let x ← digitVal a
      let y ← digitVal b
      pure (x * 10 + y, rest)
  | _ => none

/-- Read exactly four decimal digits. -/
def read4 : List Char → Option (Nat × List Char)
  | a :: b :: c :: d :: rest => do
      let x ← digitVal a
      let y ← digitVal b
      let z ← digitVal c
      let w ← digitVal d
      pure (((x * 10 + y) * 10 + z) * 10 + w, rest)
  | _ => none

/-- Gregorian leap-year test, as `datetime` uses. -/
def isLeap (y : Nat) : Bool :=
  (y % 4 == 0 && y % 100 != 0) || y % 400 == 0

/-- Days in a month, as `datetime.date` validates. -/
def daysInMonth (y m : Nat) : Nat :=
  match m with
  | 2 => if isLeap y then 29 else 28
  | 4 => 30
  | 6 => 30
  | 9 => 30
  | 11 => 30
  | _ => 31

/-- Read the optional `.fff` / `.ffffff` fraction as microseconds. -/
def readFraction : List Char → Option (Nat × List Char)
  | '.' :: rest =>
      match rest with
      | a :: b :: c :: d :: e :: f :: tail =>
          match digitVal a, digitVal b, digitVal c,
                digitVal d, digitVal e, digitVal f with
          | some x, some y, some z, some u, some v, some w =>
              some (((((x * 10 + y) * 10 + z) * 10 + u) * 10 + v) * 10 + w, tail)
          | some x, some y, some z, _, _, _ =>
              some ((x * 100 + y * 10 + z) * 1000, d :: e :: f :: tail)
          | _, _, _, _, _, _ => none
      | a :: b :: c :: tail => do
          let x ← digitVal a
          let y ← digitVal b
          let z ← digitVal c
          pure ((x * 100 + y * 10 + z) * 1000, tail)
      | _ => none
  | rest => some (0, rest)

/-- Read the optional `+HH:MM` / `-HH:MM` UTC offset. -/
def readOffset : List Char → Option (Option Int × List Char)
  | [] => some (none, [])
  | sign :: rest =>
      if sign = '+' ∨ sign = '-' then do
        let (oh, r₁) ← read2 rest
        match r₁ with
        | ':' :: r₂ => do
            let (om, r₃) ← read2 r₂
            if oh < 24 ∧ om < 60 then
              let total : Int := (oh : Int) * 60 + (om : Int)
              pure (some (if sign = '-' then -total else total), r₃)
            else none
        | _ => none
      else none

/-- The time-of-day part `HH:MM:SS[.ffffff][±HH:MM]`. -/
def readTime (cs : List Char) : Option (Nat × Nat × Nat × Nat × Option Int) := do
  let (hh, r₁) ← read2 cs
  match r₁ with
  | ':' :: r₂ => do
      let (mi, r₃) ← read2 r₂
      match r₃ with
      | ':' :: r₄ => do
          let (ss, r₅) ← read2 r₄
          let (us, r₆) ← readFraction r₅
          let (off, r₇) ← readOffset r₆
          if hh < 24 ∧ mi < 60 ∧ ss < 60 ∧ r₇ = [] then
            pure (hh, mi, ss, us, off)
          else none
      | _ => none
  | _ => none

/-- Model of `datetime.fromisoformat` on the subset described above. -/
def fromisoformat (s : String) : Option PyDateTime := do
  let (y, r₁) ← read4 s.toList
  match r₁ with
  | '-' :: r₂ => do
      let (mo, r₃) ← read2 r₂
      match r₃ with
      | '-' :: r₄ => do
          let (d, r₅) ← read2 r₄
          if 1 ≤ y ∧ y ≤ 9999 ∧ 1 ≤ mo ∧ mo ≤ 12 ∧ 1 ≤ d ∧ d ≤ daysInMonth y mo
          then
            match r₅ with
            | [] => pure ⟨y, mo, d, 0, 0, 0, 0, none⟩
            | _ :: tpart => do
                let (hh, mi, ss, us, off) ← readTime tpart
                pure ⟨y, mo, d, hh, mi, ss, us, off⟩
          else none
      | _ => none
  | _ => none

/-! ## Entity series transposer
(`fipy/ngsi/entity.py`, class `EntitySeries`, and
`fipy/dict.py`, `merge_dicts`). -/

/-- The result of `EntitySeries.from_quantumleap_format`: a dynamic
`EntitySeries` subclass instance holding the parsed time index plus one
field per attribute, in first-contribution order, with the Quantum Leap
value arrays as (default) values.  The dynamic model's *name*
(`f"{entityType}Series"`) plays no further role and is not modelled;
neither is the pydantic field shadowing that an attribute literally
named `index` would cause. -/
structure EntitySeries where
  index : List PyDateTime
  attrs : List (String × JVal)
  deriving Repr, DecidableEq

/-- `to_kv` (entity.py:463-467): `{}` when `attrName` is missing or
`== ''`, else the singleton `{key: payload.get('values', [])}`.  A
non-string `attrName` is carried through (it fails only later, when the
merged keys become keyword arguments of `create_model`); a non-dict
payload raises `AttributeError` at its `.get` call. -/
def to_kv (attr_payload : JVal) : Except String (List (JVal × JVal)) :=
  match attr_payload with
  | .jobj kvs =>
      let key := (alookup kvs "attrName").getD (.jstr "")
      if key = .jstr "" then .ok []
      else .ok [(key, (alookup kvs "values").getD (.jarr []))]
  | _ => .error "AttributeError: attribute payload has no get"

/-- `{**x, **y}`: start from `x`, then write each `y` pair on top. -/
def dictUpdate (x y : List (JVal × JVal)) : List (JVal × JVal) :=
  y.foldl (fun acc p => ainsert acc p.1 p.2) x

/-- `merge_dicts` (dict.py:83-93): left fold of `{**x, **y}` starting
from the empty dict, so precedence goes to later dicts. -/
def merge_dicts (ds : List (List (JVal × JVal))) : List (JVal × JVal) :=
  ds.foldl dictUpdate []

/-- The list comprehension `[to_kv(x) for x in attributes]`. -/
def mapToKv : List JVal → Except String (List (List (JVal × JVal)))
  | [] => .ok []
  | p :: rest =>
      match to_kv p, mapToKv rest with
      | .ok kv, .ok tail => .ok (kv :: tail)
      | .error m, _ => .error m
      | .ok _, .error m => .error m

/-- The comprehension `[datetime.fromisoformat(t) for t in raw_tix]`:
a non-string entry raises `TypeError`, an unparsable string raises
`ValueError` — either way the whole call fails. -/
def parseTix : List JVal → Except String (List PyDateTime)
  | [] => .ok []
  | .jstr t :: rest =>
      match fromisoformat t, parseTix rest with
      | some d, .ok tail => .ok (d :: tail)
      | none, _ => .error "ValueError: invalid isoformat string"
      | some _, .error m => .error m
  | _ :: _ => .error "TypeError: fromisoformat argument must be str"

/-- `create_model(model_name, __base__=cls, **attr_fields)` requires
every merged key to be a (keyword-argument) string. -/
def strKeys : List (JVal × JVal) → Except String (List (String × JVal))
  | [] => .ok []
  | (.jstr k, v) :: rest =>
      match strKeys rest with
      | .ok tail => .ok ((k, v) :: tail)
      | .error m => .error m
  | _ :: _ => .error "TypeError: keywords must be strings"

/-- `attributes = entity_query_result.get('attributes', [])`, which the
comprehension then iterates. -/
def attrsList (kvs : PyDict) : Except String (List JVal) :=
  match alookup kvs "attributes" with
  | none => .ok []
  | some (.jarr xs) => .ok xs
  | some _ => .error "TypeError: attributes is not a list"

/-- `raw_tix = entity_query_result.get('index', [])`. -/
def indexList (kvs : PyDict) : Except String (List JVal) :=
  match alookup kvs "index" with
  | none => .ok []
  | some (.jarr xs) => .ok xs
  | some _ => .error "TypeError: index is not a list"

/-- `EntitySeries.from_quantumleap_format` (entity.py:443-477).  The
input is the decoded JSON document; anything that is not a dict (e.g.
`None`) raises `AttributeError` at the first `.get`.  Both `attributes`
and `index` default to `[]` when missing; the stages run in the
source's order — attribute payloads, then the time index, then the
dynamic model construction. -/
def from_quantumleap_format (doc : JVal) : Except String EntitySeries :=
  match doc with
  | .jobj kvs =>
      match attrsList kvs with
      | .error m => .error m
      | .ok payloads =>
          match mapToKv payloads with
          | .error m => .error m
          | .ok kvList =>
              match indexList kvs with
              | .error m => .error m
              | .ok rawTix =>
                  match parseTix rawTix with
                  | .error m => .error m
                  | .ok tix =>
                      match strKeys (merge_dicts kvList) with
                      | .error m => .error m
                      | .ok fields => .ok ⟨tix, fields⟩
  | _ => .error "AttributeError: input document has no get"

/-! ## `EntitySeries.from_quantumleap_type_format` (entity.py:488-536).

The loop body does `ec = dict(e)` and then `ec['entityType'] = etype`:
a top-level shallow copy followed by an in-place key write.  To state
the frame property (the caller's per-entity dicts are untouched) the
mutable dict objects are modelled explicitly: a heap of dict cells, the
per-entity dicts passed by reference (`doc['entities']` is a list of
references to them), `dict(e)` as allocation of a fresh cell and the
key write as mutation of a cell.  Nested values are `JVal`s — pure in
the model, which is faithful because the code never writes through
them.  The rest of the top-level query document is never mutated and is
passed by value. -/

/-- The mutable dict store: cell `r` holds the dict object referenced
by `r`. -/
abbrev Heap := List PyDict

/-- Reference to a dict object. -/
abbrev Ref := Nat

/-- Dereference (`[]` past the end never happens in the modelled runs;
reading it gives a dummy empty dict). -/
def readCell (h : Heap) (r : Ref) : PyDict :=
  (h.get? r).getD []

/-- `dict(e)`: allocate a fresh cell holding a top-level copy. -/
def allocCell (h : Heap) (d : PyDict) : Heap × Ref :=
  (h ++ [d], h.length)

/-- `ec[k] = v`: in-place key write on the cell behind `r`. -/
def writeKey (h : Heap) (r : Ref) (k : String) (v : JVal) : Heap :=
  h.set r (ainsert (readCell h r) k v)

/-- The `for e in entities` loop of `from_quantumleap_type_format`,
threading the heap.  `series_dict[id] = series` is a Python dict write,
last write winning; an exception from `from_quantumleap_format`
propagates, abandoning the partial dict. -/
def qlTypeLoop (etype : JVal) :
    List Ref → Heap → List (JVal × EntitySeries) →
      Heap × Except String (List (JVal × EntitySeries))
  | [], h, acc => (h, .ok acc)
  | r :: rest, h, acc =>
      let (h₁, rc) := allocCell h (readCell h r)
      let h₂ := writeKey h₁ rc "entityType" etype
      let ec := readCell h₂ rc
      let i := (alookup ec "entityId").getD (.jstr "")
      match from_quantumleap_format (.jobj ec) with
      | .error msg => (h₂, .error msg)
      | .ok series => qlTypeLoop etype rest h₂ (ainsert acc i series)

/-- `EntitySeries.from_quantumleap_type_format` (entity.py:488-536).
`doc` is the top-level query document minus its `entities` value, which
is the list of references to the caller's per-entity dict objects. -/
def from_quantumleap_type_format (h : Heap) (doc : PyDict)
    (entities : List Ref) :
    Heap × Except String (List (JVal × EntitySeries)) :=
  let etype := (alookup doc "entityType").getD (.jstr "")
  qlTypeLoop etype entities h []

/-- Specification-side counterpart of `from_quantumleap_type_format`,
written to the claim's words: for each entity entry, a single-entity
document synthesized by injecting the shared `entityType` into a
top-level copy, delegated to `from_quantumleap_format`, keyed by the
entry's `entityId` (empty string when missing) with last write
winning.  Pure: every entry is read from the caller's original heap,
with no mutable state threaded through. -/
def multiSeriesSpec (h : Heap) (etype : JVal) :
    List Ref → List (JVal × EntitySeries) →
      Except String (List (JVal × EntitySeries))
  | [], acc => .ok acc
  | r :: rest, acc =>
      let ec := ainsert (readCell h r) "entityType" etype
      let i := (alookup ec "entityId").getD (.jstr "")
      match from_quantumleap_format (.jobj ec) with
      | .error msg => .error msg
      | .ok series => multiSeriesSpec h etype rest (ainsert acc i series)

/-! ## Basic association-list lemmas. -/

/-- Left-biased alternative on `Option`, written out to keep rewriting
predictable. -/
def oalt {α : Type} : Option α → Option α → Option α
  | some a, _ => some a
  | none, b => b

theorem oalt_none_left {α : Type} (b : Option α) : oalt none b = b := rfl

theorem oalt_some_left {α : Type} (a : α) (b : Option α) :
    oalt (some a) b = some a := rfl

theorem oalt_none_right {α : Type} (a : Option α) : oalt a none = a := by
  cases a <;> rfl

theorem oalt_assoc {α : Type} (a b c : Option α) :
    oalt (oalt a b) c = oalt a (oalt b c) := by
  cases a <;> cases b <;> rfl

theorem oalt_isSome_left {α : Type} {a : Option α} (b : Option α)
    (h : a.isSome) : (oalt a b).isSome := by
  cases a with
  | none => simp [Option.isSome] at h
  | some x => rfl

theorem oalt_isSome_right {α : Type} (a : Option α) {b : Option α}
    (h : b.isSome) : (oalt a b).isSome := by
  cases a with
  | none => exact h
  | some x => rfl

theorem alookup_cons {κ α : Type} [DecidableEq κ] (k₁ : κ) (v : α)
    (rest : List (κ × α)) (k : κ) :
    alookup ((k₁, v) :: rest) k = if k₁ = k then some v else alookup rest k :=
  rfl

theorem alookup_ainsert {κ α : Type} [DecidableEq κ]
    (l : List (κ × α)) (k : κ) (v : α) (k₂ : κ) :
    alookup (ainsert l k v) k₂ = if k = k₂ then some v else alookup l k₂ := by
  induction l with
  | nil => simp [ainsert, alookup]
  | cons p rest ih =>
      obtain ⟨k₁, v₁⟩ := p
      by_cases h₁ : k₁ = k
      · subst h₁
        simp only [ainsert, if_pos rfl, alookup_cons]
        by_cases h₂ : k₁ = k₂ <;> simp [h₂, alookup_cons]
      · simp only [ainsert, if_neg h₁, alookup_cons, ih]
        by_cases h₂ : k₁ = k₂
        · subst h₂
          have hk : ¬(k = k₁) := fun he => h₁ he.symm
          simp [if_neg hk]
        · simp [if_neg h₂]

theorem alookup_mem_keys {κ α : Type} [DecidableEq κ]
    {l : List (κ × α)} {k : κ} {v : α} (h : alookup l k = some v) :
    k ∈ l.map Prod.fst := by
  induction l with
  | nil => simp [alookup] at h
  | cons p rest ih =>
      obtain ⟨k₁, v₁⟩ := p
      rw [alookup_cons] at h
      by_cases h₁ : k₁ = k
      · subst h₁; simp
      · rw [if_neg h₁] at h
        simp [ih h]

theorem alookup_not_mem {κ α : Type} [DecidableEq κ]
    {l : List (κ × α)} {k : κ} (h : k ∉ l.map Prod.fst) :
    alookup l k = none := by
  induction l with
  | nil => rfl
  | cons p rest ih =>
      obtain ⟨k₁, v₁⟩ := p
      simp only [List.map_cons, List.mem_cons] at h
      push_neg at h
      rw [alookup_cons, if_neg (fun he => h.1 he.symm), ih h.2]

theorem ainsert_keys_subset {κ α : Type} [DecidableEq κ]
    (l : List (κ × α)) (k : κ) (v : α) :
    ((ainsert l k v).map Prod.fst) = l.map Prod.fst ∨
      ((ainsert l k v).map Prod.fst) = l.map Prod.fst ++ [k] := by
  induction l with
  | nil => right; rfl
  | cons p rest ih =>
      obtain ⟨k₁, v₁⟩ := p
      by_cases h₁ : k₁ = k
      · left; simp [ainsert, h₁]
      · rcases ih with ih | ih
        · left; simp [ainsert, if_neg h₁, ih]
        · right; simp [ainsert, if_neg h₁, ih]

theorem ainsert_keys_nodup {κ α : Type} [DecidableEq κ]
    {l : List (κ × α)} (hn : (l.map Prod.fst).Nodup) (k : κ) (v : α) :
    ((ainsert l k v).map Prod.fst).Nodup := by
  induction l with
  | nil => simp [ainsert]
  | cons p rest ih =>
      obtain ⟨k₁, v₁⟩ := p
      simp only [List.map_cons, List.nodup_cons] at hn
      by_cases h₁ : k₁ = k
      · subst h₁
        have he : ainsert ((k₁, v₁) :: rest) k₁ v = (k₁, v) :: rest := by
          simp [ainsert]
        rw [he, List.map_cons, List.nodup_cons]
        exact hn
      · have he : ainsert ((k₁, v₁) :: rest) k v = (k₁, v₁) :: ainsert rest k v := by
          simp [ainsert, if_neg h₁]
        rw [he, List.map_cons, List.nodup_cons]
        refine ⟨?_, ih hn.2⟩
        intro hmem
        rcases ainsert_keys_subset rest k v with hs | hs
        · exact hn.1 (hs ▸ hmem)
        · rw [hs] at hmem
          rcases List.mem_append.mp hmem with hmem | hmem
          · exact hn.1 hmem
          · exact h₁ (List.mem_singleton.mp hmem)

/-! ## C1: attribute inference. -/

/-- C1: the inference function `json_val_to_attr` maps a JSON value by
its runtime shape: null yields no attribute; a boolean yields a
`Boolean`-tagged attribute of `BoolAttr` class (booleans are dispatched
on their exact class, never to `Number`); an integer or float yields a
`Number` attribute; a string a `Text` attribute; a list an `Array`
attribute; a dict a `StructuredValue` attribute; and in every non-null
case the stored value compares `==` to the input (the Python values
outside the JSON-value domain, for which the code also answers `None`,
are outside this model of untyped JSON). -/
theorem json_val_to_attr_infer_table :
    json_val_to_attr .jnull = none
  ∧ (∀ b, ∃ a, json_val_to_attr (.jbool b) = some a ∧
      a.type = some AttrKind.boolean.tag ∧ a.value.kind = .boolean ∧
      a.value.eqJVal (.jbool b) = true)
  ∧ (∀ n : Int, ∃ a, json_val_to_attr (.jint n) = some a ∧
      a.type = some AttrKind.number.tag ∧ a.value.kind = .number ∧
      a.value.eqJVal (.jint n) = true)
  ∧ (∀ q : Rat, ∃ a, json_val_to_attr (.jfloat q) = some a ∧
      a.type = some AttrKind.number.tag ∧ a.value.kind = .number ∧
      a.value.eqJVal (.jfloat q) = true)
  ∧ (∀ t : String, ∃ a, json_val_to_attr (.jstr t) = some a ∧
      a.type = some AttrKind.text.tag ∧ a.value.kind = .text ∧
      a.value.eqJVal (.jstr t) = true)
  ∧ (∀ xs : List JVal, ∃ a, json_val_to_attr (.jarr xs) = some a ∧
      a.type = some AttrKind.array.tag ∧ a.value.kind = .array ∧
      a.value.eqJVal (.jarr xs) = true)
  ∧ (∀ kvs : List (String × JVal), ∃ a, json_val_to_attr (.jobj kvs) = some a ∧
      a.type = some AttrKind.structured.tag ∧ a.value.kind = .structured ∧
      a.value.eqJVal (.jobj kvs) = true) := by
  refine ⟨rfl, ?_, ?_, ?_, ?_, ?_, ?_⟩ <;> intro x <;>
    exact ⟨_, rfl, rfl, rfl, by simp [AttrValue.eqJVal]⟩

/-! ## C3: serialization omits absent attributes. -/

theorem attr_toJVal_not_null (a : Attr) : a.toJVal ≠ .jnull := by
  simp [Attr.toJVal]

/-- The ordered object `to_json` emits, spelled out. -/
theorem to_json_shape (e : Entity) :
    e.to_json = ("id", JVal.jstr e.id) :: ("type", JVal.jstr e.type) ::
      e.attrs.filterMap (fun p => p.2.map (fun a => (p.1, a.toJVal))) := by
  simp only [Entity.to_json, Entity.dumpFields, List.filterMap_cons,
    List.filterMap_map]
  simp [Function.comp_def, Option.map_map]

/-- C3: `to_json` emits `id`, then `type`, then exactly the present
attributes in declaration order; an entity whose attribute slots are
all unset serializes to just the `id`/`type` object; no key is ever
paired with JSON null; and a declared attribute that holds no value
contributes no key at all. -/
theorem to_json_omits_unset (e : Entity) :
    e.to_json = ("id", .jstr e.id) :: ("type", .jstr e.type) ::
        e.attrs.filterMap (fun p => p.2.map (fun a => (p.1, a.toJVal)))
  ∧ ((∀ p ∈ e.attrs, p.2 = none) →
      e.to_json = [("id", .jstr e.id), ("type", .jstr e.type)])
  ∧ (∀ n, (n, JVal.jnull) ∉ e.to_json)
  ∧ (∀ n, n ≠ "id" → n ≠ "type" →
      (∀ a, (n, a) ∈ e.attrs → a = none) → ∀ v, (n, v) ∉ e.to_json) := by
  have hshape := to_json_shape e
  refine ⟨hshape, ?_, ?_, ?_⟩
  · intro hall
    rw [hshape]
    have : e.attrs.filterMap (fun p => p.2.map (fun a => (p.1, a.toJVal))) = [] := by
      rw [List.filterMap_eq_nil_iff]
      intro p hp
      rw [hall p hp]
      rfl
    rw [this]
  · intro n hmem
    rw [hshape] at hmem
    simp only [List.mem_cons] at hmem
    rcases hmem with h | h | h
    · exact absurd (congrArg Prod.snd h) (by simp)
    · exact absurd (congrArg Prod.snd h) (by simp)
    · rcases List.mem_filterMap.mp h with ⟨p, _, hp⟩
      cases ha : p.2 with
      | none => rw [ha] at hp; exact absurd hp (by simp)
      | some a =>
          rw [ha] at hp
          simp only [Option.map] at hp
          exact attr_toJVal_not_null a (congrArg Prod.snd (Option.some_inj.mp hp))
  · intro n hid hty hnone v hmem
    rw [hshape] at hmem
    simp only [List.mem_cons] at hmem
    rcases hmem with h | h | h
    · exact hid (congrArg Prod.fst h)
    · exact hty (congrArg Prod.fst h)
    · rcases List.mem_filterMap.mp h with ⟨p, hpmem, hp⟩
      cases ha : p.2 with
      | none => rw [ha] at hp; exact absurd hp (by simp)
      | some a =>
          rw [ha] at hp
          simp only [Option.map] at hp
          replace hp := Option.some_inj.mp hp
          have hn : p.1 = n := congrArg Prod.fst hp
          have hcontra : some a = none :=
            hnone (some a) (by rw [← hn, ← ha]; exact hpmem)
          exact absurd hcontra (by simp)

/-- C3 witness: a `Bot` entity with an unset `speed` slot serializes to
exactly the two-field object. -/
theorem to_json_omits_unset_witness :
    Entity.to_json ⟨"urn:ngsi-ld:Bot:1", "Bot", [("speed", none)]⟩ =
      [("id", .jstr "urn:ngsi-ld:Bot:1"), ("type", .jstr "Bot")] :=
  (to_json_omits_unset ⟨"urn:ngsi-ld:Bot:1", "Bot", [("speed", none)]⟩).2.1
    (by intro p hp; simp at hp; rw [hp])

/-! ## C2: `from_raw` type filtering. -/

theorem hasSameNgsiType_iff (s : Schema) (raw : PyDict) :
    hasSameNgsiType s raw = true ↔
      (alookup raw "type").getD (.jstr "") = .jstr s.etype := by
  unfold hasSameNgsiType
  rcases h : alookup raw "type" with _ | v
  · simp [Option.getD]
  · cases v <;> simp [Option.getD]

theorem buildAttrsFromRaw_congr {raw raw₂ : PyDict}
    (l : List (String × AttrKind))
    (h : ∀ p ∈ l, alookup raw₂ p.1 = alookup raw p.1) :
    buildAttrsFromRaw raw₂ l = buildAttrsFromRaw raw l := by
  induction l with
  | nil => rfl
  | cons p rest ih =>
      obtain ⟨n, k⟩ := p
      have hn : parseSlot raw₂ n k = parseSlot raw n k := by
        unfold parseSlot
        rw [h (n, k) (by simp)]
      have hrest := ih (fun q hq => h q (List.mem_cons_of_mem _ hq))
      simp only [buildAttrsFromRaw, hn, hrest]

theorem parseIdField_ok {raw : PyDict} {i : String}
    (h : parseIdField raw = .ok i) : alookup raw "id" = some (.jstr i) := by
  unfold parseIdField at h
  rcases hl : alookup raw "id" with _ | v
  · rw [hl] at h; exact absurd h (by simp)
  · rw [hl] at h
    cases v <;> simp_all

theorem parseTypeField_of_same {s : Schema} {raw : PyDict}
    (h : hasSameNgsiType s raw = true) : parseTypeField s raw = .ok s.etype := by
  have hg := (hasSameNgsiType_iff s raw).mp h
  unfold parseTypeField
  rcases hl : alookup raw "type" with _ | v
  · rfl
  · rw [hl] at hg
    simp only [Option.getD] at hg
    cases v <;> simp_all

theorem buildAttrsFromRaw_keys {raw : PyDict} :
    ∀ {l : List (String × AttrKind)} {as : List (String × Option Attr)},
      buildAttrsFromRaw raw l = .ok as → as.map Prod.fst = l.map Prod.fst := by
  intro l
  induction l with
  | nil =>
      intro as h
      have : (Except.ok [] : Except String (List (String × Option Attr))) = .ok as := h
      cases this
      rfl
  | cons p rest ih =>
      intro as h
      obtain ⟨n, k⟩ := p
      unfold buildAttrsFromRaw at h
      rcases hs : parseSlot raw n k with m | a <;> rw [hs] at h
      · exact absurd h (by simp)
      · rcases hb : buildAttrsFromRaw raw rest with m | tail <;> rw [hb] at h
        · exact absurd h (by simp)
        · cases h
          simp [ih hb]

/-- C2: `from_raw` yields `None` whenever the raw dict's NGSI type
(defaulting to `''` when the `type` key is missing) is not the schema's
bound type — in particular whenever the key is missing and the bound
type is the nonempty string every concrete schema binds; its result
depends only on the `id`, `type` and declared-attribute keys, so
undeclared fields are ignored; and any entity it does return carries
the schema's type, the raw dict's `id` string, and exactly the declared
attribute slots in declaration order. -/
theorem from_raw_type_filter (s : Schema) (raw : PyDict) :
    ((alookup raw "type").getD (.jstr "") ≠ .jstr s.etype →
      from_raw s raw = .ok none)
  ∧ (alookup raw "type" = none → s.etype ≠ "" → from_raw s raw = .ok none)
  ∧ (∀ raw₂ : PyDict, alookup raw₂ "id" = alookup raw "id" →
      alookup raw₂ "type" = alookup raw "type" →
      (∀ p ∈ s.attrs, alookup raw₂ p.1 = alookup raw p.1) →
      from_raw s raw₂ = from_raw s raw)
  ∧ (∀ e, from_raw s raw = .ok (some e) →
      e.type = s.etype ∧ alookup raw "id" = some (.jstr e.id) ∧
      e.attrs.map Prod.fst = s.attrs.map Prod.fst) := by
  refine ⟨?_, ?_, ?_, ?_⟩
  · intro hne
    have : hasSameNgsiType s raw = false := by
      rcases Bool.eq_false_or_eq_true (hasSameNgsiType s raw) with h | h
      · exact absurd ((hasSameNgsiType_iff s raw).mp h) hne
      · exact h
    simp [from_raw, this]
  · intro hnone hty
    have hne : (alookup raw "type").getD (.jstr "") ≠ .jstr s.etype := by
      rw [hnone]
      simpa [Option.getD] using fun he => hty (JVal.jstr.inj he).symm
    have hfalse : hasSameNgsiType s raw = false := by
      rcases Bool.eq_false_or_eq_true (hasSameNgsiType s raw) with h | h
      · exact absurd ((hasSameNgsiType_iff s raw).mp h) hne
      · exact h
    simp [from_raw, hfalse]
  · intro raw₂ hid hty hattrs
    unfold from_raw
    have hsame : hasSameNgsiType s raw₂ = hasSameNgsiType s raw := by
      unfold hasSameNgsiType
      rw [hty]
    have hpid : parseIdField raw₂ = parseIdField raw := by
      unfold parseIdField
      rw [hid]
    have hpty : parseTypeField s raw₂ = parseTypeField s raw := by
      unfold parseTypeField
      rw [hty]
    rw [hsame, hpid, hpty, buildAttrsFromRaw_congr s.attrs hattrs]
  · intro e h
    unfold from_raw at h
    by_cases hsame : hasSameNgsiType s raw = true
    case neg =>
      simp only [Bool.not_eq_true] at hsame
      rw [hsame] at h
      exact absurd h (by simp)
    rw [if_pos hsame] at h
    rcases hI : parseIdField raw with m | i <;> rw [hI] at h
    · exact absurd h (by simp)
    rcases hT : parseTypeField s raw with m | t <;> rw [hT] at h
    · exact absurd h (by simp)
    rcases hB : buildAttrsFromRaw raw s.attrs with m | as <;> rw [hB] at h
    · exact absurd h (by simp)
    have he : e = ⟨i, t, as⟩ := by
      cases h
      rfl
    have ht : t = s.etype := by
      have := parseTypeField_of_same hsame
      rw [hT] at this
      cases this
      rfl
    subst he
    exact ⟨ht, parseIdField_ok hI, buildAttrsFromRaw_keys hB⟩

/-- C2 witness: a `NotMe`-typed document is filtered out by the `Bot`
schema whatever else it contains. -/
theorem from_raw_type_filter_witness :
    from_raw ⟨"Bot", [("speed", .number)]⟩
      [("id", .jstr "2"), ("type", .jstr "NotMe"),
       ("speed", .jobj [("value", .jint 2)])] = .ok none :=
  (from_raw_type_filter ⟨"Bot", [("speed", .number)]⟩
    [("id", .jstr "2"), ("type", .jstr "NotMe"),
     ("speed", .jobj [("value", .jint 2)])]).1 (by decide)

/-! ## C7: flat-representation round trip. -/

/-- Well-formedness every concrete `BaseEntity` subclass has by
construction: declared attribute names are distinct and do not collide
with the reserved `id`/`type` fields. -/
def Schema.WF (s : Schema) : Prop :=
  "id" ∉ s.attrs.map Prod.fst ∧ "type" ∉ s.attrs.map Prod.fst ∧
    (s.attrs.map Prod.fst).Nodup

theorem alookup_eq_some_mem {κ α : Type} [DecidableEq κ]
    {l : List (κ × α)} {k : κ} {v : α} (h : alookup l k = some v) :
    (k, v) ∈ l := by
  induction l with
  | nil => exact absurd h (by simp [alookup])
  | cons p rest ih =>
      obtain ⟨k₁, v₁⟩ := p
      rw [alookup_cons] at h
      by_cases h₁ : k₁ = k
      · rw [if_pos h₁] at h
        cases h
        subst h₁
        simp
      · rw [if_neg h₁] at h
        exact List.mem_cons_of_mem _ (ih h)

theorem json_val_to_attr_canonical {v : JVal} {a : Attr}
    (h : json_val_to_attr v = some a) : a.type = some a.value.kind.tag := by
  cases v <;> cases h <;> rfl

theorem entity_kv_attr_canonical {repr : PyDict} {n : String} {a : Attr}
    (h : alookup (entity_kv_to_entity_dict repr).attrs n = some a) :
    a.type = some a.value.kind.tag := by
  have hmem := alookup_eq_some_mem h
  simp only [entity_kv_to_entity_dict, List.mem_filterMap] at hmem
  obtain ⟨p, _, hp⟩ := hmem
  by_cases hres : p.1 = "id" ∨ p.1 = "type"
  · rw [if_pos hres] at hp
    exact absurd hp (by simp)
  · rw [if_neg hres] at hp
    rcases hj : json_val_to_attr p.2 with _ | a₂ <;> rw [hj] at hp
    · exact absurd hp (by simp)
    · simp only [Option.map] at hp
      have : a₂ = a := congrArg Prod.snd (Option.some_inj.mp hp)
      exact this ▸ json_val_to_attr_canonical hj

theorem kvSlot_ok {fields : List (String × Attr)} {n : String}
    {k : AttrKind} {a : Option Attr} (h : kvSlot fields n k = .ok a) :
    a = alookup fields n ∧ ∀ a₀, alookup fields n = some a₀ → a₀.value.kind = k := by
  unfold kvSlot at h
  rcases hl : alookup fields n with _ | a₀ <;> rw [hl] at h
  · cases h
    exact ⟨rfl, by simp⟩
  · have h₂ : (if a₀.value.kind = k then (Except.ok (some a₀) : Except String (Option Attr))
        else .error "validation error: wrong attribute class") = .ok a := h
    by_cases hk : a₀.value.kind = k
    · rw [if_pos hk] at h₂
      cases h₂
      exact ⟨rfl, fun a₁ h₁ => by cases h₁; exact hk⟩
    · rw [if_neg hk] at h₂
      exact absurd h₂ (by simp)

theorem buildAttrsFromKv_ok {fields : List (String × Attr)} :
    ∀ {l : List (String × AttrKind)} {as : List (String × Option Attr)},
      buildAttrsFromKv fields l = .ok as →
      as = l.map (fun p => (p.1, alookup fields p.1)) ∧
        ∀ p ∈ l, ∀ a, alookup fields p.1 = some a → a.value.kind = p.2 := by
  intro l
  induction l with
  | nil =>
      intro as h
      have : (Except.ok [] : Except String (List (String × Option Attr))) = .ok as := h
      cases this
      exact ⟨rfl, by simp⟩
  | cons p rest ih =>
      intro as h
      obtain ⟨n, k⟩ := p
      unfold buildAttrsFromKv at h
      rcases hs : kvSlot fields n k with m | a <;> rw [hs] at h
      · exact absurd h (by simp)
      · rcases hb : buildAttrsFromKv fields rest with m | tail <;> rw [hb] at h
        · exact absurd h (by simp)
        · cases h
          obtain ⟨hslot, hkind⟩ := kvSlot_ok hs
          obtain ⟨htail, htkind⟩ := ih hb
          refine ⟨by rw [List.map_cons, ← htail, hslot], ?_⟩
          intro q hq a₀ ha₀
          rcases List.mem_cons.mp hq with hq | hq
          · subst hq
            exact hkind a₀ ha₀
          · exact htkind q hq a₀ ha₀

theorem from_raw_kv_ok {s : Schema} {repr : PyDict} {e : Entity}
    (h : from_raw_kv s repr = .ok (some e)) :
    hasSameNgsiType s repr = true ∧
      (entity_kv_to_entity_dict repr).id = .jstr e.id ∧
      e.type = s.etype ∧
      buildAttrsFromKv (entity_kv_to_entity_dict repr).attrs s.attrs = .ok e.attrs := by
  unfold from_raw_kv at h
  by_cases hsame : hasSameNgsiType s repr = true
  case neg =>
    simp only [Bool.not_eq_true] at hsame
    rw [hsame] at h
    exact absurd h (by simp)
  rw [if_pos hsame] at h
  rcases hI : parseStrVal (entity_kv_to_entity_dict repr).id with m | i <;>
    simp only [hI] at h
  · exact absurd h (by simp)
  rcases hT : parseStrVal (entity_kv_to_entity_dict repr).type with m | t <;>
    simp only [hT] at h
  · exact absurd h (by simp)
  rcases hB : buildAttrsFromKv (entity_kv_to_entity_dict repr).attrs s.attrs
      with m | as <;> simp only [hB] at h
  · exact absurd h (by simp)
  have he : e = ⟨i, t, as⟩ := by
    cases h
    rfl
  subst he
  have hidv : (entity_kv_to_entity_dict repr).id = .jstr i := by
    unfold parseStrVal at hI
    split at hI
    case h_1 s₀ heq =>
      cases hI
      exact heq
    case h_2 => exact absurd hI (by simp)
  have htyv : t = s.etype := by
    have hfty : (entity_kv_to_entity_dict repr).type = .jstr s.etype := by
      have := (hasSameNgsiType_iff s repr).mp hsame
      simp only [entity_kv_to_entity_dict]
      exact this
    rw [hfty] at hT
    unfold parseStrVal at hT
    cases hT
    rfl
  refine ⟨hsame, hidv, htyv, ?_⟩
  rfl

theorem alookup_filterMap_attrs_none {l : List (String × Option Attr)}
    {n : String} (h : n ∉ l.map Prod.fst) :
    alookup (l.filterMap (fun p => p.2.map (fun a => (p.1, a.toJVal)))) n = none := by
  apply alookup_not_mem
  intro hmem
  apply h
  simp only [List.map_filterMap] at hmem
  rcases List.mem_filterMap.mp hmem with ⟨p, hp, hv⟩
  cases ha : p.2 with
  | none => rw [ha] at hv; exact absurd hv (by simp)
  | some a =>
      rw [ha] at hv
      simp only [Option.map, Option.some_inj] at hv
      rw [← hv]
      exact List.mem_map_of_mem _ hp

theorem alookup_filterMap_attrs (l : List (String × Option Attr))
    (n : String) (hnd : (l.map Prod.fst).Nodup) :
    alookup (l.filterMap (fun p => p.2.map (fun a => (p.1, a.toJVal)))) n =
      ((alookup l n).bind id).map Attr.toJVal := by
  induction l with
  | nil => rfl
  | cons p rest ih =>
      obtain ⟨m, a?⟩ := p
      simp only [List.map_cons, List.nodup_cons] at hnd
      by_cases hm : m = n
      · cases a? with
        | none =>
            have h₁ : List.filterMap
                (fun p => p.2.map (fun a => (p.1, Attr.toJVal a)))
                ((m, (none : Option Attr)) :: rest) =
                List.filterMap (fun p => p.2.map (fun a => (p.1, Attr.toJVal a))) rest :=
              rfl
            rw [h₁, alookup_filterMap_attrs_none (hm ▸ hnd.1), alookup_cons,
              if_pos hm]
            rfl
        | some a =>
            have h₁ : List.filterMap
                (fun p => p.2.map (fun a => (p.1, Attr.toJVal a)))
                ((m, some a) :: rest) =
                (m, a.toJVal) ::
                  List.filterMap (fun p => p.2.map (fun a => (p.1, Attr.toJVal a))) rest :=
              rfl
            rw [h₁, alookup_cons, if_pos hm, alookup_cons, if_pos hm]
            rfl
      · cases a? with
        | none =>
            have h₁ : List.filterMap
                (fun p => p.2.map (fun a => (p.1, Attr.toJVal a)))
                ((m, (none : Option Attr)) :: rest) =
                List.filterMap (fun p => p.2.map (fun a => (p.1, Attr.toJVal a))) rest :=
              rfl
            rw [h₁, alookup_cons, if_neg hm]
            exact ih hnd.2
        | some a =>
            have h₁ : List.filterMap
                (fun p => p.2.map (fun a => (p.1, Attr.toJVal a)))
                ((m, some a) :: rest) =
                (m, a.toJVal) ::
                  List.filterMap (fun p => p.2.map (fun a => (p.1, Attr.toJVal a))) rest :=
              rfl
            rw [h₁, alookup_cons, if_neg hm, alookup_cons, if_neg hm]
            exact ih hnd.2

theorem alookup_to_json (e : Entity) (n : String)
    (hid : n ≠ "id") (hty : n ≠ "type")
    (hnd : (e.attrs.map Prod.fst).Nodup) :
    alookup e.to_json n = ((alookup e.attrs n).bind id).map Attr.toJVal := by
  rw [to_json_shape e, alookup_cons, if_neg (fun he => hid he.symm),
    alookup_cons, if_neg (fun he => hty he.symm)]
  exact alookup_filterMap_attrs e.attrs n hnd

theorem alookup_map_slot (l : List (String × AttrKind))
    (f : String → Option Attr) {n : String} (h : n ∈ l.map Prod.fst) :
    alookup (l.map (fun p => (p.1, f p.1))) n = some (f n) := by
  induction l with
  | nil => exact absurd h (by simp)
  | cons p rest ih =>
      obtain ⟨m, k⟩ := p
      by_cases hm : m = n
      · subst hm
        simp [alookup_cons]
      · simp only [List.map_cons, List.mem_cons] at h
        rcases h with h | h
        · exact absurd h.symm hm
        · simp only [List.map_cons, alookup_cons, if_neg hm]
          exact ih h

theorem parseAttrValue_toJVal (v : AttrValue) :
    parseAttrValue v.kind v.toJVal = .ok v.strip := by
  cases v <;> rfl

theorem parseAttr_toJVal {a : Attr} {t : String} (h : a.type = some t) :
    parseAttr a.value.kind a.toJVal = .ok (some a.strip) := by
  obtain ⟨ty, v⟩ := a
  have h₂ : ty = some t := h
  subst h₂
  cases v <;> rfl

theorem buildAttrsFromRaw_of_pointwise {raw : PyDict}
    (g : String → Option Attr) :
    ∀ {l : List (String × AttrKind)},
      (∀ p ∈ l, parseSlot raw p.1 p.2 = .ok (g p.1)) →
      buildAttrsFromRaw raw l = .ok (l.map (fun p => (p.1, g p.1))) := by
  intro l
  induction l with
  | nil => intro _; rfl
  | cons p rest ih =>
      intro h
      obtain ⟨n, k⟩ := p
      have hhead := h (n, k) (by simp)
      have htail := ih (fun q hq => h q (List.mem_cons_of_mem _ hq))
      unfold buildAttrsFromRaw
      rw [hhead, htail]
      rfl

/-- C7 counterexample: pydantic's recursive `exclude_none` breaks the
round trip.  The flat document below is accepted by `from_raw_kv`
against a `Bot` schema declaring an `Array` attribute `stuff`, giving
an entity whose `stuff` value is `[1, null]`; serialization strips the
nested null, so re-parsing the emitted JSON produces an entity with
`stuff == [1]` — not equal to the original. -/
theorem from_raw_kv_roundtrip_cex :
    from_raw_kv ⟨"Bot", [("stuff", .array)]⟩
      [("id", .jstr "b1"), ("type", .jstr "Bot"),
       ("stuff", .jarr [.jint 1, .jnull])] =
      .ok (some ⟨"b1", "Bot",
        [("stuff", some ⟨some "Array", .arr [.jint 1, .jnull]⟩)]⟩) ∧
    from_raw ⟨"Bot", [("stuff", .array)]⟩
      (Entity.to_json ⟨"b1", "Bot",
        [("stuff", some ⟨some "Array", .arr [.jint 1, .jnull]⟩)]⟩) =
      .ok (some ⟨"b1", "Bot",
        [("stuff", some ⟨some "Array", .arr [.jint 1]⟩)]⟩) ∧
    (⟨"b1", "Bot", [("stuff", some ⟨some "Array", .arr [.jint 1]⟩)]⟩ : Entity) ≠
      ⟨"b1", "Bot", [("stuff", some ⟨some "Array", .arr [.jint 1, .jnull]⟩)]⟩ :=
  ⟨rfl, rfl, by decide⟩

/-- C7, amended: for any entity accepted by `from_raw_kv` against a
well-formed schema, serializing with `to_json` and re-parsing with
`from_raw` under the same schema reproduces the entity up to pydantic's
recursive `exclude_none` filter — the result is the original entity
with JSON nulls stripped from inside its `Array`/`StructuredValue`
attribute values; in particular, whenever that filter leaves the entity
unchanged (no attribute value contains a nested null) the round trip
reproduces an equal entity. -/
theorem from_raw_kv_roundtrip_strip (s : Schema) (repr : PyDict) (e : Entity)
    (hWF : s.WF) (h : from_raw_kv s repr = .ok (some e)) :
    from_raw s e.to_json = .ok (some e.stripNested) ∧
    (e.stripNested = e → from_raw s e.to_json = .ok (some e)) := by
  obtain ⟨hndid, hndty, hnd⟩ := hWF
  obtain ⟨hsame, hidv, htype, hbuild⟩ := from_raw_kv_ok h
  obtain ⟨hattrs_eq, hkinds⟩ := buildAttrsFromKv_ok hbuild
  have hkeys : e.attrs.map Prod.fst = s.attrs.map Prod.fst := by
    rw [hattrs_eq, List.map_map]
    rfl
  have hnde : (e.attrs.map Prod.fst).Nodup := hkeys ▸ hnd
  have hlook_ty : alookup e.to_json "type" = some (.jstr e.type) := by
    rw [to_json_shape e, alookup_cons, if_neg (by decide : ¬("id" = "type")),
      alookup_cons, if_pos rfl]
  have hsame₂ : hasSameNgsiType s e.to_json = true := by
    unfold hasSameNgsiType
    rw [hlook_ty, htype]
    simp
  have hparse_id : parseIdField e.to_json = .ok e.id := by
    unfold parseIdField
    rw [to_json_shape e, alookup_cons, if_pos rfl]
  have hparse_ty : parseTypeField s e.to_json = .ok e.type := by
    unfold parseTypeField
    rw [hlook_ty]
  have hpoint : ∀ p ∈ s.attrs,
      parseSlot e.to_json p.1 p.2 =
        .ok ((alookup (entity_kv_to_entity_dict repr).attrs p.1).map
          Attr.strip) := by
    intro p hp
    have hpid : p.1 ≠ "id" := fun he => hndid (he ▸ List.mem_map_of_mem _ hp)
    have hpty : p.1 ≠ "type" := fun he => hndty (he ▸ List.mem_map_of_mem _ hp)
    have hmemkeys : p.1 ∈ e.attrs.map Prod.fst := by
      rw [hkeys]
      exact List.mem_map_of_mem _ hp
    have hslotv : alookup e.attrs p.1 =
        some (alookup (entity_kv_to_entity_dict repr).attrs p.1) := by
      rw [hattrs_eq]
      exact alookup_map_slot s.attrs _ (hkeys ▸ hmemkeys)
    unfold parseSlot
    rw [alookup_to_json e p.1 hpid hpty hnde, hslotv]
    rcases hg : alookup (entity_kv_to_entity_dict repr).attrs p.1 with _ | a
    · rfl
    · have hka : a.value.kind = p.2 := hkinds p hp a hg
      have hcanon : a.type = some a.value.kind.tag := entity_kv_attr_canonical hg
      show parseAttr p.2 a.toJVal = Except.ok (some a.strip)
      rw [← hka]
      exact parseAttr_toJVal hcanon
  have hstrip : e.stripNested =
      ⟨e.id, e.type, s.attrs.map (fun p =>
        (p.1, (alookup (entity_kv_to_entity_dict repr).attrs p.1).map
          Attr.strip))⟩ := by
    unfold Entity.stripNested
    rw [hattrs_eq, List.map_map]
    rfl
  have hmain : from_raw s e.to_json = .ok (some e.stripNested) := by
    have hbuild₂ : buildAttrsFromRaw e.to_json s.attrs =
        .ok (s.attrs.map (fun p =>
          (p.1, (alookup (entity_kv_to_entity_dict repr).attrs p.1).map
            Attr.strip))) :=
      buildAttrsFromRaw_of_pointwise
        (fun n => (alookup (entity_kv_to_entity_dict repr).attrs n).map
          Attr.strip) hpoint
    unfold from_raw
    rw [if_pos hsame₂, hparse_id, hparse_ty, hbuild₂, hstrip]
  exact ⟨hmain, fun hfix => by rw [hmain, hfix]⟩

/-- C7 witness: the doctest `Bot` entity carries no nested nulls, so
the round trip reproduces it exactly. -/
theorem from_raw_kv_roundtrip_strip_witness :
    from_raw ⟨"Bot", [("speed", .number)]⟩
      (Entity.to_json ⟨"urn:ngsi-ld:Bot:3", "Bot",
        [("speed", some ⟨some "Number", .num (123 / 10 : Rat)⟩)]⟩) =
      .ok (some ⟨"urn:ngsi-ld:Bot:3", "Bot",
        [("speed", some ⟨some "Number", .num (123 / 10 : Rat)⟩)]⟩) :=
  (from_raw_kv_roundtrip_strip ⟨"Bot", [("speed", .number)]⟩
    [("id", .jstr "urn:ngsi-ld:Bot:3"), ("type", .jstr "Bot"),
     ("speed", .jfloat (123 / 10 : Rat)),
     ("other", .jstr "not in class def, ignore")]
    ⟨"urn:ngsi-ld:Bot:3", "Bot",
      [("speed", some ⟨some "Number", .num (123 / 10 : Rat)⟩)]⟩
    ⟨by decide, by decide, by decide⟩ (by rfl)).2 (by rfl)

/-! ## Merge lemmas for the series transposer. -/

/-- The last value a pair list writes for key `k` under repeated
`d[k] = v` updates. -/
def lastPair : List (JVal × JVal) → JVal → Option JVal
  | [], _ => none
  | p :: rest, k => oalt (lastPair rest k) (if p.1 = k then some p.2 else none)

/-- The last value a list of dicts contributes for key `k` when merged
left to right with later dicts taking precedence. -/
def lastBind : List (List (JVal × JVal)) → JVal → Option JVal
  | [], _ => none
  | d :: rest, k => oalt (lastBind rest k) (lastPair d k)

theorem foldl_ainsert_lookup (y : List (JVal × JVal)) :
    ∀ (x : List (JVal × JVal)) (k : JVal),
      alookup (y.foldl (fun acc p => ainsert acc p.1 p.2) x) k =
        oalt (lastPair y k) (alookup x k) := by
  induction y with
  | nil => intro x k; rfl
  | cons p rest ih =>
      intro x k
      simp only [List.foldl_cons, lastPair]
      rw [ih, alookup_ainsert, oalt_assoc]
      congr 1
      by_cases hp : p.1 = k
      · rw [if_pos hp, if_pos hp]
        rfl
      · rw [if_neg hp, if_neg hp]
        rfl

theorem dictUpdate_lookup (x y : List (JVal × JVal)) (k : JVal) :
    alookup (dictUpdate x y) k = oalt (lastPair y k) (alookup x k) :=
  foldl_ainsert_lookup y x k

theorem foldl_dictUpdate_lookup (ds : List (List (JVal × JVal))) :
    ∀ (init : List (JVal × JVal)) (k : JVal),
      alookup (ds.foldl dictUpdate init) k =
        oalt (lastBind ds k) (alookup init k) := by
  induction ds with
  | nil => intro init k; rfl
  | cons d rest ih =>
      intro init k
      simp only [List.foldl_cons, lastBind]
      rw [ih, dictUpdate_lookup, oalt_assoc]

theorem merge_dicts_lookup (ds : List (List (JVal × JVal))) (k : JVal) :
    alookup (merge_dicts ds) k = lastBind ds k := by
  unfold merge_dicts
  rw [foldl_dictUpdate_lookup]
  exact oalt_none_right _

theorem dictUpdate_keys_nodup {x : List (JVal × JVal)}
    (hn : (x.map Prod.fst).Nodup) (y : List (JVal × JVal)) :
    ((dictUpdate x y).map Prod.fst).Nodup := by
  induction y generalizing x with
  | nil => exact hn
  | cons p rest ih =>
      have : dictUpdate x (p :: rest) = dictUpdate (ainsert x p.1 p.2) rest := rfl
      rw [this]
      exact ih (ainsert_keys_nodup hn p.1 p.2)

theorem merge_dicts_keys_nodup (ds : List (List (JVal × JVal))) :
    ((merge_dicts ds).map Prod.fst).Nodup := by
  suffices h : ∀ init : List (JVal × JVal), (init.map Prod.fst).Nodup →
      ((ds.foldl dictUpdate init).map Prod.fst).Nodup from h [] (by simp)
  induction ds with
  | nil => intro init hn; exact hn
  | cons d rest ih =>
      intro init hn
      exact ih _ (dictUpdate_keys_nodup hn d)

theorem strKeys_shape :
    ∀ {m : List (JVal × JVal)} {fields : List (String × JVal)},
      strKeys m = .ok fields →
      m = fields.map (fun p => (JVal.jstr p.1, p.2)) := by
  intro m
  induction m with
  | nil =>
      intro fields h
      have : (Except.ok [] : Except String (List (String × JVal))) = .ok fields := h
      cases this
      rfl
  | cons p rest ih =>
      intro fields h
      obtain ⟨kv, v⟩ := p
      cases kv with
      | jstr k =>
          unfold strKeys at h
          rcases hr : strKeys rest with m | tail <;> rw [hr] at h
          · exact absurd h (by simp)
          · cases h
            rw [ih hr]
            rfl
      | jnull => exact absurd h (by simp [strKeys])
      | jbool b => exact absurd h (by simp [strKeys])
      | jint n => exact absurd h (by simp [strKeys])
      | jfloat q => exact absurd h (by simp [strKeys])
      | jarr xs => exact absurd h (by simp [strKeys])
      | jobj kvs => exact absurd h (by simp [strKeys])

theorem alookup_map_jstr (fields : List (String × JVal)) (k : String) :
    alookup (fields.map (fun p => (JVal.jstr p.1, p.2))) (.jstr k) =
      alookup fields k := by
  induction fields with
  | nil => rfl
  | cons p rest ih =>
      obtain ⟨k₁, v⟩ := p
      simp only [List.map_cons, alookup_cons]
      by_cases hk : k₁ = k
      · rw [if_pos (by rw [hk]), if_pos hk]
      · rw [if_neg (fun he => hk (JVal.jstr.inj he)), if_neg hk, ih]

theorem strKeys_lookup {m : List (JVal × JVal)} {fields : List (String × JVal)}
    (h : strKeys m = .ok fields) (k : String) :
    alookup fields k = alookup m (.jstr k) := by
  rw [strKeys_shape h, alookup_map_jstr]

theorem strKeys_keys_nodup {m : List (JVal × JVal)}
    {fields : List (String × JVal)} (h : strKeys m = .ok fields)
    (hn : (m.map Prod.fst).Nodup) : (fields.map Prod.fst).Nodup := by
  rw [strKeys_shape h] at hn
  have : m.map Prod.fst = (fields.map Prod.fst).map JVal.jstr := by
    rw [strKeys_shape h, List.map_map, List.map_map]
    rfl
  rw [strKeys_shape h] at this
  have h₂ : ((fields.map Prod.fst).map JVal.jstr).Nodup := by
    rw [← this]
    exact hn
  exact h₂.of_map

theorem mapToKv_append :
    ∀ {l₁ l₂ : List JVal} {ds : List (List (JVal × JVal))},
      mapToKv (l₁ ++ l₂) = .ok ds →
      ∃ ds₁ ds₂, mapToKv l₁ = .ok ds₁ ∧ mapToKv l₂ = .ok ds₂ ∧ ds = ds₁ ++ ds₂ := by
  intro l₁
  induction l₁ with
  | nil =>
      intro l₂ ds h
      exact ⟨[], ds, rfl, h, rfl⟩
  | cons p rest ih =>
      intro l₂ ds h
      have h₂ : mapToKv (p :: (rest ++ l₂)) = .ok ds := h
      unfold mapToKv at h₂
      rcases hkv : to_kv p with m | kv <;> rw [hkv] at h₂
      · exact absurd h₂ (by simp)
      rcases hrest : mapToKv (rest ++ l₂) with m | tail <;> rw [hrest] at h₂
      · exact absurd h₂ (by simp)
      cases h₂
      obtain ⟨ds₁, ds₂, hd₁, hd₂, hds⟩ := ih hrest
      refine ⟨kv :: ds₁, ds₂, ?_, hd₂, by simp [hds]⟩
      unfold mapToKv
      rw [hkv, hd₁]

theorem mapToKv_append_ok {l₁ l₂ : List JVal}
    {ds₁ ds₂ : List (List (JVal × JVal))}
    (h₁ : mapToKv l₁ = .ok ds₁) (h₂ : mapToKv l₂ = .ok ds₂) :
    mapToKv (l₁ ++ l₂) = .ok (ds₁ ++ ds₂) := by
  induction l₁ generalizing ds₁ with
  | nil =>
      have : (Except.ok [] : Except String (List (List (JVal × JVal)))) = .ok ds₁ := h₁
      cases this
      exact h₂
  | cons p rest ih =>
      unfold mapToKv at h₁
      rcases hkv : to_kv p with m | kv <;> rw [hkv] at h₁
      · exact absurd h₁ (by simp)
      rcases hrest : mapToKv rest with m | tail <;> rw [hrest] at h₁
      · exact absurd h₁ (by simp)
      cases h₁
      have : mapToKv ((p :: rest) ++ l₂) = mapToKv (p :: (rest ++ l₂)) := rfl
      rw [this]
      unfold mapToKv
      rw [hkv, ih hrest]
      rfl

/-! ## C4 and C5: attribute-payload and index policies of
`from_quantumleap_format`. -/

/-- A single-entity query document of the wire shape
`\x7b"index": [...], "attributes": [...]\x7d`. -/
def qlDoc (ix : List JVal) (ps : List JVal) : JVal :=
  .jobj [("index", .jarr ix), ("attributes", .jarr ps)]

theorem from_ql_qlDoc (ix ps : List JVal) :
    from_quantumleap_format (qlDoc ix ps) =
      match mapToKv ps with
      | .error m => .error m
      | .ok kvList =>
          match parseTix ix with
          | .error m => .error m
          | .ok tix =>
              match strKeys (merge_dicts kvList) with
              | .error m => .error m
              | .ok fields => .ok ⟨tix, fields⟩ := rfl

theorem to_kv_jobj (pkv : List (String × JVal)) :
    to_kv (.jobj pkv) =
      if (alookup pkv "attrName").getD (.jstr "") = .jstr "" then .ok []
      else .ok [((alookup pkv "attrName").getD (.jstr ""),
                 (alookup pkv "values").getD (.jarr []))] := rfl

theorem mapToKv_cons (p : JVal) (rest : List JVal) :
    mapToKv (p :: rest) =
      match to_kv p, mapToKv rest with
      | .ok kv, .ok tail => .ok (kv :: tail)
      | .error m, _ => .error m
      | .ok _, .error m => .error m := rfl

theorem mapToKv_error_left {l₁ : List JVal} {m : String}
    (h : mapToKv l₁ = .error m) (l₂ : List JVal) :
    mapToKv (l₁ ++ l₂) = .error m := by
  induction l₁ with
  | nil => exact absurd h (by simp [mapToKv])
  | cons p rest ih =>
      rw [mapToKv_cons] at h
      show mapToKv (p :: (rest ++ l₂)) = Except.error m
      rw [mapToKv_cons]
      rcases hkv : to_kv p with m₁ | kv <;> rw [hkv] at h
      · exact h
      · rcases hrest : mapToKv rest with m₁ | tail <;> rw [hrest] at h
        · have h₂ : (Except.error m₁ :
              Except String (List (List (JVal × JVal)))) = .error m := h
          cases h₂
          rw [ih hrest]
        · exact absurd h (by simp)

theorem mapToKv_error_right {l₁ l₂ : List JVal}
    {ds₁ : List (List (JVal × JVal))} {m : String}
    (h₁ : mapToKv l₁ = .ok ds₁) (h₂ : mapToKv l₂ = .error m) :
    mapToKv (l₁ ++ l₂) = .error m := by
  induction l₁ generalizing ds₁ with
  | nil => exact h₂
  | cons p rest ih =>
      rw [mapToKv_cons] at h₁
      show mapToKv (p :: (rest ++ l₂)) = Except.error m
      rw [mapToKv_cons]
      rcases hkv : to_kv p with m₁ | kv <;> rw [hkv] at h₁
      · exact absurd h₁ (by simp)
      · rcases hrest : mapToKv rest with m₁ | tail <;> rw [hrest] at h₁
        · exact absurd h₁ (by simp)
        · rw [ih hrest]

theorem from_ql_qlDoc_inv {ix ps : List JVal} {s : EntitySeries}
    (h : from_quantumleap_format (qlDoc ix ps) = .ok s) :
    ∃ ds, mapToKv ps = .ok ds ∧ parseTix ix = .ok s.index ∧
      strKeys (merge_dicts ds) = .ok s.attrs := by
  rw [from_ql_qlDoc] at h
  rcases hM : mapToKv ps with m | ds <;> rw [hM] at h
  · exact absurd h (by simp)
  have h₂ : (match parseTix ix with
             | .error m => (.error m : Except String EntitySeries)
             | .ok tix =>
                 match strKeys (merge_dicts ds) with
                 | .error m => .error m
                 | .ok fields => .ok ⟨tix, fields⟩) = .ok s := h
  rcases hT : parseTix ix with m | tix <;> rw [hT] at h₂
  · exact absurd h₂ (by simp)
  have h₃ : (match strKeys (merge_dicts ds) with
             | .error m => (.error m : Except String EntitySeries)
             | .ok fields => .ok ⟨tix, fields⟩) = .ok s := h₂
  rcases hS : strKeys (merge_dicts ds) with m | fields <;> rw [hS] at h₃
  · exact absurd h₃ (by simp)
  have h₄ : (Except.ok (⟨tix, fields⟩ : EntitySeries)) = .ok s := h₃
  cases h₄
  exact ⟨ds, rfl, rfl, hS⟩

theorem from_ql_qlDoc_eval {ix ps : List JVal}
    {ds : List (List (JVal × JVal))} {tix : List PyDateTime}
    {fields : List (String × JVal)}
    (hM : mapToKv ps = .ok ds) (hT : parseTix ix = .ok tix)
    (hS : strKeys (merge_dicts ds) = .ok fields) :
    from_quantumleap_format (qlDoc ix ps) = .ok ⟨tix, fields⟩ := by
  rw [from_ql_qlDoc, hM]
  show (match parseTix ix with
        | .error m => (.error m : Except String EntitySeries)
        | .ok tix =>
            match strKeys (merge_dicts ds) with
            | .error m => .error m
            | .ok fields => .ok ⟨tix, fields⟩) = _
  rw [hT]
  show (match strKeys (merge_dicts ds) with
        | .error m => (.error m : Except String EntitySeries)
        | .ok fields => .ok ⟨tix, fields⟩) = _
  rw [hS]

theorem merge_dicts_middle_nil (ds₁ ds₂ : List (List (JVal × JVal))) :
    merge_dicts (ds₁ ++ [] :: ds₂) = merge_dicts (ds₁ ++ ds₂) := by
  unfold merge_dicts
  rw [List.foldl_append, List.foldl_cons, List.foldl_append]
  rfl

theorem mapToKv_cons_ok {p : JVal} {kv : List (JVal × JVal)}
    {rest : List JVal} {ds : List (List (JVal × JVal))}
    (hp : to_kv p = .ok kv) (hrest : mapToKv rest = .ok ds) :
    mapToKv (p :: rest) = .ok (kv :: ds) := by
  unfold mapToKv
  rw [hp, hrest]

/-- C4 counterexample: a payload carrying a valid `attrName` but no
`values` key is not skipped — the resulting series has a field for it,
holding the empty default list. -/
theorem ql_missing_values_contributes :
    from_quantumleap_format
        (.jobj [("attributes", .jarr [.jobj [("attrName", .jstr "a")]])]) =
      .ok ⟨[], [("a", .jarr [])]⟩ ∧
    ((⟨[], [("a", .jarr [])]⟩ : EntitySeries).attrs ≠ []) :=
  ⟨rfl, by decide⟩

theorem mapToKv_mem :
    ∀ {ps : List JVal} {ds : List (List (JVal × JVal))},
      mapToKv ps = .ok ds → ∀ {p}, p ∈ ps →
      ∃ kv, kv ∈ ds ∧ to_kv p = .ok kv := by
  intro ps
  induction ps with
  | nil =>
      intro ds h p hp
      exact absurd hp (by simp)
  | cons q rest ih =>
      intro ds h p hp
      unfold mapToKv at h
      rcases hq : to_kv q with m | kv <;> rw [hq] at h
      · exact absurd h (by simp)
      rcases hrest : mapToKv rest with m | tail <;> rw [hrest] at h
      · exact absurd h (by simp)
      cases h
      rcases List.mem_cons.mp hp with hp | hp
      · exact ⟨kv, by simp, hp ▸ hq⟩
      · obtain ⟨kv₂, hmem₂, hkv₂⟩ := ih hrest hp
        exact ⟨kv₂, List.mem_cons_of_mem _ hmem₂, hkv₂⟩

theorem lastBind_isSome_of_mem {ds : List (List (JVal × JVal))}
    {d : List (JVal × JVal)} {k : JVal}
    (hmem : d ∈ ds) (h : (lastPair d k).isSome) : (lastBind ds k).isSome := by
  induction ds with
  | nil => exact absurd hmem (by simp)
  | cons d₁ rest ih =>
      rcases List.mem_cons.mp hmem with he | hm
      · subst he
        exact oalt_isSome_right _ h
      · exact oalt_isSome_left _ (ih hm)

theorem mapToKv_congr_middle {p p₂ : JVal} (hpp : to_kv p = to_kv p₂)
    (pre post : List JVal) :
    mapToKv (pre ++ p :: post) = mapToKv (pre ++ p₂ :: post) := by
  induction pre with
  | nil =>
      show mapToKv (p :: post) = mapToKv (p₂ :: post)
      unfold mapToKv
      rw [hpp]
  | cons q rest ih =>
      show mapToKv (q :: (rest ++ p :: post)) = mapToKv (q :: (rest ++ p₂ :: post))
      unfold mapToKv
      rw [ih]

/-- C4, amended: a payload entry whose `attrName` is missing or empty
contributes nothing — deleting it does not change the result at all; a
payload with a valid name but no `values` key is kept and behaves
exactly like one carrying an explicit empty `values` list; and every
payload with a valid non-empty name leaves a field under that name in
any successfully built series. -/
theorem from_ql_payload_policy :
    (∀ ix pre post pkv,
      (alookup pkv "attrName" = none ∨ alookup pkv "attrName" = some (.jstr "")) →
      from_quantumleap_format (qlDoc ix (pre ++ .jobj pkv :: post)) =
        from_quantumleap_format (qlDoc ix (pre ++ post)))
  ∧ (∀ ix pre post pkv k,
      alookup pkv "attrName" = some (.jstr k) → k ≠ "" →
      alookup pkv "values" = none →
      from_quantumleap_format (qlDoc ix (pre ++ .jobj pkv :: post)) =
        from_quantumleap_format
          (qlDoc ix (pre ++ .jobj (ainsert pkv "values" (.jarr [])) :: post)))
  ∧ (∀ ix ps s pkv k,
      from_quantumleap_format (qlDoc ix ps) = .ok s →
      .jobj pkv ∈ ps → alookup pkv "attrName" = some (.jstr k) → k ≠ "" →
      (alookup s.attrs k).isSome) := by
  refine ⟨?_, ?_, ?_⟩
  · intro ix pre post pkv hname
    have hto : to_kv (.jobj pkv) = .ok [] := by
      rw [to_kv_jobj]
      rcases hname with h | h <;> rw [h] <;>
        simp [Option.getD_some, Option.getD_none]
    rw [from_ql_qlDoc, from_ql_qlDoc]
    rcases hpre : mapToKv pre with m | ds₁
    · rw [mapToKv_error_left hpre, mapToKv_error_left hpre]
    · rcases hpost : mapToKv post with m | ds₂
      · have hmid : mapToKv (JVal.jobj pkv :: post) = .error m := by
          unfold mapToKv
          rw [hto, hpost]
        rw [mapToKv_error_right hpre hmid, mapToKv_error_right hpre hpost]
      · have hmid : mapToKv (JVal.jobj pkv :: post) = .ok ([] :: ds₂) :=
          mapToKv_cons_ok hto hpost
        rw [mapToKv_append_ok hpre hmid, mapToKv_append_ok hpre hpost]
        show (match parseTix ix with
              | .error m => (.error m : Except String EntitySeries)
              | .ok tix =>
                  match strKeys (merge_dicts (ds₁ ++ [] :: ds₂)) with
                  | .error m => .error m
                  | .ok fields => .ok ⟨tix, fields⟩) =
          (match parseTix ix with
           | .error m => (.error m : Except String EntitySeries)
           | .ok tix =>
               match strKeys (merge_dicts (ds₁ ++ ds₂)) with
               | .error m => .error m
               | .ok fields => .ok ⟨tix, fields⟩)
        rw [merge_dicts_middle_nil]
  · intro ix pre post pkv k hname hk hvals
    have hkne : ¬(JVal.jstr k = .jstr "") := fun he => hk (JVal.jstr.inj he)
    have hL : to_kv (.jobj pkv) = .ok [(.jstr k, .jarr [])] := by
      rw [to_kv_jobj, hname, hvals]
      simp only [Option.getD_some, Option.getD_none]
      rw [if_neg hkne]
    have h₁ : alookup (ainsert pkv "values" (.jarr [])) "attrName" =
        some (.jstr k) := by
      rw [alookup_ainsert, if_neg (by decide : ¬("values" = "attrName")), hname]
    have h₂ : alookup (ainsert pkv "values" (.jarr [])) "values" =
        some (.jarr []) := by
      rw [alookup_ainsert, if_pos rfl]
    have hR : to_kv (.jobj (ainsert pkv "values" (.jarr []))) =
        .ok [(.jstr k, .jarr [])] := by
      rw [to_kv_jobj, h₁, h₂]
      simp only [Option.getD_some]
      rw [if_neg hkne]
    rw [from_ql_qlDoc, from_ql_qlDoc,
      mapToKv_congr_middle (hL.trans hR.symm) pre post]
  · intro ix ps s pkv k hok hmem hname hk
    have hkne : ¬(JVal.jstr k = .jstr "") := fun he => hk (JVal.jstr.inj he)
    obtain ⟨ds, hM, hT, hS⟩ := from_ql_qlDoc_inv hok
    rw [strKeys_lookup hS k, merge_dicts_lookup]
    obtain ⟨kv, hkvmem, hkv⟩ := mapToKv_mem hM hmem
    have hto : to_kv (.jobj pkv) =
        .ok [(.jstr k, (alookup pkv "values").getD (.jarr []))] := by
      rw [to_kv_jobj, hname]
      simp only [Option.getD_some]
      rw [if_neg hkne]
    rw [hto] at hkv
    have hkv₂ : kv = [(.jstr k, (alookup pkv "values").getD (.jarr []))] := by
      cases hkv
      rfl
    apply lastBind_isSome_of_mem hkvmem
    rw [hkv₂]
    show (oalt (lastPair [] (.jstr k))
      (if (JVal.jstr k) = (.jstr k)
        then some ((alookup pkv "values").getD (.jarr [])) else none)).isSome
    rw [if_pos rfl]
    rfl

/-- C4 witness: a payload with no `attrName` at all is dropped — the
document behaves exactly as if the payload were not there. -/
theorem from_ql_payload_policy_witness :
    from_quantumleap_format (qlDoc [] [.jobj [("values", .jarr [.jint 1])]]) =
      from_quantumleap_format (qlDoc [] []) :=
  from_ql_payload_policy.1 [] [] [] [("values", .jarr [.jint 1])] (Or.inl rfl)

theorem from_ql_jobj_inv {kvs : PyDict} {s : EntitySeries}
    (h : from_quantumleap_format (.jobj kvs) = .ok s) :
    ∃ payloads ds rawTix,
      attrsList kvs = .ok payloads ∧ mapToKv payloads = .ok ds ∧
      indexList kvs = .ok rawTix ∧ parseTix rawTix = .ok s.index ∧
      strKeys (merge_dicts ds) = .ok s.attrs := by
  have h₀ : (match attrsList kvs with
             | .error m => (.error m : Except String EntitySeries)
             | .ok payloads =>
                 match mapToKv payloads with
                 | .error m => .error m
                 | .ok kvList =>
                     match indexList kvs with
                     | .error m => .error m
                     | .ok rawTix =>
                         match parseTix rawTix with
                         | .error m => .error m
                         | .ok tix =>
                             match strKeys (merge_dicts kvList) with
                             | .error m => .error m
                             | .ok fields => .ok ⟨tix, fields⟩) = .ok s := h
  rcases hA : attrsList kvs with m | payloads <;> rw [hA] at h₀
  · exact absurd h₀ (by simp)
  have h₁ : (match mapToKv payloads with
             | .error m => (.error m : Except String EntitySeries)
             | .ok kvList =>
                 match indexList kvs with
                 | .error m => .error m
                 | .ok rawTix =>
                     match parseTix rawTix with
                     | .error m => .error m
                     | .ok tix =>
                         match strKeys (merge_dicts kvList) with
                         | .error m => .error m
                         | .ok fields => .ok ⟨tix, fields⟩) = .ok s := h₀
  rcases hM : mapToKv payloads with m | ds <;> rw [hM] at h₁
  · exact absurd h₁ (by simp)
  have h₂ : (match indexList kvs with
             | .error m => (.error m : Except String EntitySeries)
             | .ok rawTix =>
                 match parseTix rawTix with
                 | .error m => .error m
                 | .ok tix =>
                     match strKeys (merge_dicts ds) with
                     | .error m => .error m
                     | .ok fields => .ok ⟨tix, fields⟩) = .ok s := h₁
  rcases hI : indexList kvs with m | rawTix <;> rw [hI] at h₂
  · exact absurd h₂ (by simp)
  have h₃ : (match parseTix rawTix with
             | .error m => (.error m : Except String EntitySeries)
             | .ok tix =>
                 match strKeys (merge_dicts ds) with
                 | .error m => .error m
                 | .ok fields => .ok ⟨tix, fields⟩) = .ok s := h₂
  rcases hT : parseTix rawTix with m | tix <;> rw [hT] at h₃
  · exact absurd h₃ (by simp)
  have h₄ : (match strKeys (merge_dicts ds) with
             | .error m => (.error m : Except String EntitySeries)
             | .ok fields => .ok ⟨tix, fields⟩) = .ok s := h₃
  rcases hS : strKeys (merge_dicts ds) with m | fields <;> rw [hS] at h₄
  · exact absurd h₄ (by simp)
  have h₅ : (Except.ok (⟨tix, fields⟩ : EntitySeries)) = .ok s := h₄
  cases h₅
  exact ⟨payloads, ds, rawTix, rfl, hM, rfl, hT, hS⟩

/-- C5 counterexample: a document with no `index` key but a complete
attribute payload yields a series that does carry an attribute field
(the claim asserts no attribute fields at all in that case). -/
theorem ql_no_index_keeps_attr_fields :
    from_quantumleap_format (.jobj [("attributes",
        .jarr [.jobj [("attrName", .jstr "a"),
                      ("values", .jarr [.jint 1, .jint 2])]])]) =
      .ok ⟨[], [("a", .jarr [.jint 1, .jint 2])]⟩ ∧
    ((⟨[], [("a", .jarr [.jint 1, .jint 2])]⟩ : EntitySeries).attrs ≠ []) :=
  ⟨rfl, by decide⟩

/-- C5, amended: a document with no `index` key is treated as having an
empty time index — the series' `index` is the empty sequence; attribute
fields are still built from the `attributes` array as usual, so only a
document that also lacks `attributes` (such as the empty document)
yields a series with no attribute fields. -/
theorem from_ql_no_index (kvs : PyDict) (s : EntitySeries)
    (hix : alookup kvs "index" = none)
    (h : from_quantumleap_format (.jobj kvs) = .ok s) :
    s.index = [] ∧ (alookup kvs "attributes" = none → s.attrs = []) ∧
    (∀ ps ds, alookup kvs "attributes" = some (.jarr ps) →
      mapToKv ps = .ok ds → strKeys (merge_dicts ds) = .ok s.attrs) := by
  obtain ⟨payloads, ds, rawTix, hA, hM, hI, hT, hS⟩ := from_ql_jobj_inv h
  have htix : rawTix = [] := by
    unfold indexList at hI
    rw [hix] at hI
    cases hI
    rfl
  subst htix
  have hidx : s.index = [] := by
    have h₂ : (Except.ok ([] : List PyDateTime)) = .ok s.index := hT
    injection h₂ with h₃
    exact h₃.symm
  refine ⟨hidx, ?_, ?_⟩
  · intro hattr
    have hple : payloads = [] := by
      unfold attrsList at hA
      rw [hattr] at hA
      cases hA
      rfl
    subst hple
    have hdse : ds = [] := by
      have h₂ : (Except.ok ([] : List (List (JVal × JVal)))) = .ok ds := hM
      injection h₂ with h₃
      exact h₃.symm
    subst hdse
    have h₂ : (Except.ok ([] : List (String × JVal))) = .ok s.attrs := hS
    injection h₂ with h₃
    exact h₃.symm
  · intro ps ds₂ hattr hM₂
    have hple : payloads = ps := by
      unfold attrsList at hA
      rw [hattr] at hA
      cases hA
      rfl
    subst hple
    have hdse : ds = ds₂ := by
      rw [hM] at hM₂
      injection hM₂
    subst hdse
    exact hS

/-- C5 witness: the empty document yields the empty series — empty
index, no attribute fields. -/
theorem from_ql_no_index_witness :
    (⟨[], []⟩ : EntitySeries).index = [] ∧
    (alookup ([] : PyDict) "attributes" = none →
      (⟨[], []⟩ : EntitySeries).attrs = []) ∧
    (∀ ps ds, alookup ([] : PyDict) "attributes" = some (.jarr ps) →
      mapToKv ps = .ok ds →
      strKeys (merge_dicts ds) = .ok (⟨[], []⟩ : EntitySeries).attrs) :=
  from_ql_no_index [] ⟨[], []⟩ rfl rfl

/-! ## C6: malformed timestamps and unusable documents fail the call. -/

theorem parseTix_cons_str (t : String) (rest : List JVal) :
    parseTix (.jstr t :: rest) =
      match fromisoformat t, parseTix rest with
      | some d, .ok tail => .ok (d :: tail)
      | none, _ => .error "ValueError: invalid isoformat string"
      | some _, .error m => .error m := rfl

theorem parseTix_ok_strings :
    ∀ {xs : List JVal} {tix : List PyDateTime}, parseTix xs = .ok tix →
      ∀ t, .jstr t ∈ xs → ∃ d, fromisoformat t = some d := by
  intro xs
  induction xs with
  | nil =>
      intro tix h t ht
      exact absurd ht (by simp)
  | cons x rest ih =>
      intro tix h t ht
      cases x with
      | jstr u =>
          rw [parseTix_cons_str] at h
          rcases hu : fromisoformat u with _ | d <;> rw [hu] at h
          · exact absurd h (by simp)
          rcases hrest : parseTix rest with m | tail <;> rw [hrest] at h
          · exact absurd h (by simp)
          rcases List.mem_cons.mp ht with he | hm
          · have htu : t = u := JVal.jstr.inj he
            exact ⟨d, by rw [htu, hu]⟩
          · exact ih hrest t hm
      | jnull => exact absurd h (by simp [parseTix])
      | jbool b => exact absurd h (by simp [parseTix])
      | jint n => exact absurd h (by simp [parseTix])
      | jfloat q => exact absurd h (by simp [parseTix])
      | jarr xs₂ => exact absurd h (by simp [parseTix])
      | jobj kvs₂ => exact absurd h (by simp [parseTix])

/-- C6: a single-entity query document whose `index` array holds a
string that is not a parsable ISO-8601 instant makes the whole call
fail with an error — no partial series is ever returned; and an input
that is not a dict at all (for instance JSON null) also fails with an
error rather than yielding an empty series. -/
theorem from_ql_fails_visibly :
    (∀ kvs xs t, alookup kvs "index" = some (.jarr xs) →
      .jstr t ∈ xs → fromisoformat t = none →
      ∃ m, from_quantumleap_format (.jobj kvs) = .error m)
  ∧ (∀ v : JVal, (∀ kvs, v ≠ .jobj kvs) →
      ∃ m, from_quantumleap_format v = .error m) := by
  constructor
  · intro kvs xs t hix hmem hbad
    rcases hfq : from_quantumleap_format (.jobj kvs) with m | s₂
    · exact ⟨m, rfl⟩
    · exfalso
      obtain ⟨payloads, ds, rawTix, hA, hM, hI, hT, hS⟩ := from_ql_jobj_inv hfq
      have hxs : rawTix = xs := by
        unfold indexList at hI
        rw [hix] at hI
        cases hI
        rfl
      subst hxs
      obtain ⟨d, hd⟩ := parseTix_ok_strings hT t hmem
      rw [hbad] at hd
      exact absurd hd (by simp)
  · intro v hv
    cases v with
    | jobj kvs => exact absurd rfl (hv kvs)
    | jnull => exact ⟨_, rfl⟩
    | jbool b => exact ⟨_, rfl⟩
    | jint n => exact ⟨_, rfl⟩
    | jfloat q => exact ⟨_, rfl⟩
    | jstr t => exact ⟨_, rfl⟩
    | jarr xs => exact ⟨_, rfl⟩

/-- C6 witness: the unparsable timestamp string `"boo"` makes the call
fail. -/
theorem from_ql_fails_visibly_witness :
    ∃ m, from_quantumleap_format
      (.jobj [("index", .jarr [.jstr "boo"])]) = .error m :=
  from_ql_fails_visibly.1 [("index", .jarr [.jstr "boo"])] [.jstr "boo"] "boo"
    rfl (by simp) rfl

/-! ## C10: duplicate attribute names — later payloads win. -/

theorem lastBind_append (l₁ l₂ : List (List (JVal × JVal))) (k : JVal) :
    lastBind (l₁ ++ l₂) k = oalt (lastBind l₂ k) (lastBind l₁ k) := by
  induction l₁ with
  | nil => rw [List.nil_append]; exact (oalt_none_right _).symm
  | cons d rest ih =>
      show oalt (lastBind (rest ++ l₂) k) (lastPair d k) =
        oalt (lastBind l₂ k) (oalt (lastBind rest k) (lastPair d k))
      rw [ih, oalt_assoc]

theorem lastBind_none_of_all {ds : List (List (JVal × JVal))} {k : JVal}
    (h : ∀ d ∈ ds, lastPair d k = none) : lastBind ds k = none := by
  induction ds with
  | nil => rfl
  | cons d rest ih =>
      show oalt (lastBind rest k) (lastPair d k) = none
      rw [h d (by simp), ih (fun d₂ hd₂ => h d₂ (List.mem_cons_of_mem _ hd₂))]
      rfl

theorem mapToKv_mem_rev :
    ∀ {ps : List JVal} {ds : List (List (JVal × JVal))},
      mapToKv ps = .ok ds → ∀ {d}, d ∈ ds →
      ∃ q, q ∈ ps ∧ to_kv q = .ok d := by
  intro ps
  induction ps with
  | nil =>
      intro ds h d hd
      have h₂ : (Except.ok [] : Except String (List (List (JVal × JVal)))) = .ok ds := h
      cases h₂
      exact absurd hd (by simp)
  | cons q rest ih =>
      intro ds h d hd
      rw [mapToKv_cons] at h
      rcases hq : to_kv q with m | kv <;> rw [hq] at h
      · exact absurd h (by simp)
      rcases hrest : mapToKv rest with m | tail <;> rw [hrest] at h
      · exact absurd h (by simp)
      cases h
      rcases List.mem_cons.mp hd with he | hm
      · exact ⟨q, by simp, he ▸ hq⟩
      · obtain ⟨q₂, hq₂mem, hq₂⟩ := ih hrest hm
        exact ⟨q₂, List.mem_cons_of_mem _ hq₂mem, hq₂⟩

theorem to_kv_ok_shape {q : JVal} {d : List (JVal × JVal)}
    (h : to_kv q = .ok d) :
    ∃ qkv, q = .jobj qkv ∧
      (d = [] ∨ ∃ v, d = [((alookup qkv "attrName").getD (.jstr ""), v)] ∧
        (alookup qkv "attrName").getD (.jstr "") ≠ .jstr "") := by
  cases q with
  | jobj qkv =>
      refine ⟨qkv, rfl, ?_⟩
      rw [to_kv_jobj] at h
      by_cases hc : (alookup qkv "attrName").getD (.jstr "") = .jstr ""
      · rw [if_pos hc] at h
        cases h
        exact Or.inl rfl
      · rw [if_neg hc] at h
        cases h
        exact Or.inr ⟨_, rfl, hc⟩
  | jnull => exact absurd h (by simp [to_kv])
  | jbool b => exact absurd h (by simp [to_kv])
  | jint n => exact absurd h (by simp [to_kv])
  | jfloat p => exact absurd h (by simp [to_kv])
  | jstr t => exact absurd h (by simp [to_kv])
  | jarr xs => exact absurd h (by simp [to_kv])

theorem count_eq_one_of_nodup {κ : Type} [DecidableEq κ] {l : List κ} {a : κ}
    (hn : l.Nodup) (hm : a ∈ l) : l.count a = 1 := by
  induction l with
  | nil => exact absurd hm (by simp)
  | cons b rest ih =>
      simp only [List.nodup_cons] at hn
      rcases List.mem_cons.mp hm with he | hm₂
      · subst he
        rw [List.count_cons_self, List.count_eq_zero_of_not_mem hn.1]
      · have hne : b ≠ a := fun he => hn.1 (he ▸ hm₂)
        rw [List.count_cons_of_ne (fun he => hne he.symm), ih hn.2 hm₂]

/-- C10: when a document carries two or more complete payloads under
the same non-empty `attrName`, the merged series keeps exactly one
field for that name, holding the `values` of the payload that occurs
last in the `attributes` array — later entries override earlier
ones. -/
theorem from_ql_duplicate_attr_last_wins
    (ix pre post : List JVal) (pkv : List (String × JVal))
    (k : String) (s : EntitySeries)
    (hname : alookup pkv "attrName" = some (.jstr k)) (hk : k ≠ "")
    (hlast : ∀ q ∈ post, ∀ qkv, q = .jobj qkv →
      alookup qkv "attrName" ≠ some (.jstr k))
    (hok : from_quantumleap_format (qlDoc ix (pre ++ .jobj pkv :: post)) = .ok s) :
    alookup s.attrs k = some ((alookup pkv "values").getD (.jarr [])) ∧
    (s.attrs.map Prod.fst).count k = 1 := by
  have hkne : ¬(JVal.jstr k = .jstr "") := fun he => hk (JVal.jstr.inj he)
  obtain ⟨ds, hM, hT, hS⟩ := from_ql_qlDoc_inv hok
  obtain ⟨ds₁, dsRest, hds₁, hdsRest, hds⟩ := mapToKv_append hM
  have hto : to_kv (.jobj pkv) =
      .ok [(.jstr k, (alookup pkv "values").getD (.jarr []))] := by
    rw [to_kv_jobj, hname]
    simp only [Option.getD_some]
    rw [if_neg hkne]
  rw [mapToKv_cons, hto] at hdsRest
  rcases hpost : mapToKv post with m | ds₂ <;> rw [hpost] at hdsRest
  · exact absurd hdsRest (by simp)
  have hdsRest₂ : dsRest =
      [(.jstr k, (alookup pkv "values").getD (.jarr []))] :: ds₂ := by
    have h₂ : (Except.ok ([(.jstr k, (alookup pkv "values").getD (.jarr []))] :: ds₂)
        : Except String (List (List (JVal × JVal)))) = .ok dsRest := hdsRest
    injection h₂ with h₃
    exact h₃.symm
  subst hdsRest₂
  subst hds
  have hlp : ∀ d ∈ ds₂, lastPair d (.jstr k) = none := by
    intro d hd
    obtain ⟨q, hqmem, hq⟩ := mapToKv_mem_rev hpost hd
    obtain ⟨qkv, hqe, hshape⟩ := to_kv_ok_shape hq
    rcases hshape with he | ⟨w, he, hkey⟩
    · rw [he]
      rfl
    · rw [he]
      show oalt (lastPair [] (.jstr k))
        (if (alookup qkv "attrName").getD (.jstr "") = .jstr k
          then some w else none) = none
      rw [if_neg ?_]
      · rfl
      · intro hkk
        rcases halk : alookup qkv "attrName" with _ | w₂
        · rw [halk] at hkk
          simp only [Option.getD_none] at hkk
          exact hkne hkk.symm
        · rw [halk] at hkk
          simp only [Option.getD_some] at hkk
          exact hlast q hqmem qkv hqe (by rw [halk, hkk])
  have h₁ : alookup s.attrs k = some ((alookup pkv "values").getD (.jarr [])) := by
    rw [strKeys_lookup hS k, merge_dicts_lookup, lastBind_append]
    rw [show lastBind
        ([(.jstr k, (alookup pkv "values").getD (.jarr []))] :: ds₂) (.jstr k) =
        oalt (lastBind ds₂ (.jstr k))
          (lastPair [(.jstr k, (alookup pkv "values").getD (.jarr []))]
            (.jstr k)) from rfl]
    rw [lastBind_none_of_all hlp]
    have hlpk : lastPair [(.jstr k, (alookup pkv "values").getD (.jarr []))]
        (.jstr k) = some ((alookup pkv "values").getD (.jarr [])) := by
      show oalt (lastPair [] (.jstr k))
        (if (JVal.jstr k) = (.jstr k)
          then some ((alookup pkv "values").getD (.jarr [])) else none) = _
      rw [if_pos rfl]
      rfl
    rw [hlpk]
    rfl
  have hnodup : (s.attrs.map Prod.fst).Nodup :=
    strKeys_keys_nodup hS (merge_dicts_keys_nodup _)
  exact ⟨h₁, count_eq_one_of_nodup hnodup (alookup_mem_keys h₁)⟩

/-- C10 witness: two complete `a` payloads — the later values win and
the series has exactly one `a` field. -/
theorem from_ql_duplicate_attr_last_wins_witness :
    alookup (⟨[], [("a", .jarr [.jint 2])]⟩ : EntitySeries).attrs "a" =
      some ((alookup [("attrName", .jstr "a"), ("values", .jarr [.jint 2])]
        "values").getD (.jarr [])) ∧
    (((⟨[], [("a", .jarr [.jint 2])]⟩ : EntitySeries).attrs.map
      Prod.fst).count "a") = 1 :=
  from_ql_duplicate_attr_last_wins []
    [.jobj [("attrName", .jstr "a"), ("values", .jarr [.jint 1])]] []
    [("attrName", .jstr "a"), ("values", .jarr [.jint 2])] "a"
    ⟨[], [("a", .jarr [.jint 2])]⟩
    rfl (by decide) (by simp) rfl

/-! ## C8 and C9: the multi-entity transposer — refinement to its pure
specification and the frame property on the caller's dict objects. -/

theorem readCell_append {h : Heap} (t : Heap) {r : Ref}
    (hr : r < h.length) : readCell (h ++ t) r = readCell h r := by
  unfold readCell
  rw [List.get?_append hr]

theorem readCell_concat (l : Heap) (d : PyDict) :
    readCell (l ++ [d]) l.length = d := by
  unfold readCell
  rw [List.get?_concat_length]
  rfl

theorem set_append_length {α : Type} : ∀ (l : List α) (a b : α),
    (l ++ [a]).set l.length b = l ++ [b] := by
  intro l a b
  induction l with
  | nil => rfl
  | cons x rest ih =>
      show x :: (rest ++ [a]).set rest.length b = x :: (rest ++ [b])
      rw [ih]

theorem writeKey_alloc (hc : Heap) (d : PyDict) (k : String) (v : JVal) :
    writeKey (hc ++ [d]) hc.length k v = hc ++ [ainsert d k v] := by
  unfold writeKey
  rw [readCell_concat, set_append_length]

theorem qlTypeLoop_cons (etype : JVal) (r : Ref) (rest : List Ref)
    (hc : Heap) (acc : List (JVal × EntitySeries)) :
    qlTypeLoop etype (r :: rest) hc acc =
      match from_quantumleap_format (.jobj (readCell
          (writeKey (hc ++ [readCell hc r]) hc.length "entityType" etype)
          hc.length)) with
      | .error msg =>
          (writeKey (hc ++ [readCell hc r]) hc.length "entityType" etype,
            .error msg)
      | .ok series =>
          qlTypeLoop etype rest
            (writeKey (hc ++ [readCell hc r]) hc.length "entityType" etype)
            (ainsert acc ((alookup (readCell
                (writeKey (hc ++ [readCell hc r]) hc.length "entityType" etype)
                hc.length) "entityId").getD (.jstr "")) series) := rfl

theorem qlTypeLoop_step (etype : JVal) (r : Ref) (rest : List Ref)
    (hc : Heap) (acc : List (JVal × EntitySeries)) :
    qlTypeLoop etype (r :: rest) hc acc =
      match from_quantumleap_format
          (.jobj (ainsert (readCell hc r) "entityType" etype)) with
      | .error msg =>
          (hc ++ [ainsert (readCell hc r) "entityType" etype], .error msg)
      | .ok series =>
          qlTypeLoop etype rest
            (hc ++ [ainsert (readCell hc r) "entityType" etype])
            (ainsert acc ((alookup (ainsert (readCell hc r) "entityType" etype)
                "entityId").getD (.jstr "")) series) := by
  rw [qlTypeLoop_cons, writeKey_alloc, readCell_concat]

theorem multiSeriesSpec_cons (h : Heap) (etype : JVal) (r : Ref)
    (rest : List Ref) (acc : List (JVal × EntitySeries)) :
    multiSeriesSpec h etype (r :: rest) acc =
      match from_quantumleap_format
          (.jobj (ainsert (readCell h r) "entityType" etype)) with
      | .error msg => .error msg
      | .ok series =>
          multiSeriesSpec h etype rest
            (ainsert acc ((alookup (ainsert (readCell h r) "entityType" etype)
                "entityId").getD (.jstr "")) series) := rfl

theorem qlTypeLoop_extends (etype : JVal) :
    ∀ (refs : List Ref) (hc : Heap) (acc : List (JVal × EntitySeries)),
      ∃ t, (qlTypeLoop etype refs hc acc).1 = hc ++ t := by
  intro refs
  induction refs with
  | nil =>
      intro hc acc
      exact ⟨[], by simp [qlTypeLoop]⟩
  | cons r rest ih =>
      intro hc acc
      rw [qlTypeLoop_step]
      rcases hq : from_quantumleap_format
          (.jobj (ainsert (readCell hc r) "entityType" etype)) with m | series
      · exact ⟨[ainsert (readCell hc r) "entityType" etype], rfl⟩
      · obtain ⟨t, ht⟩ := ih
          (hc ++ [ainsert (readCell hc r) "entityType" etype])
          (ainsert acc ((alookup (ainsert (readCell hc r) "entityType" etype)
            "entityId").getD (.jstr "")) series)
        exact ⟨[ainsert (readCell hc r) "entityType" etype] ++ t,
          by rw [ht, List.append_assoc]⟩

theorem qlTypeLoop_refines (etype : JVal) (h : Heap) :
    ∀ (refs : List Ref) (hc : Heap) (acc : List (JVal × EntitySeries)),
      (∀ r ∈ refs, r < h.length) → (∃ t, hc = h ++ t) →
      (qlTypeLoop etype refs hc acc).2 = multiSeriesSpec h etype refs acc := by
  intro refs
  induction refs with
  | nil => intro hc acc _ _; rfl
  | cons r rest ih =>
      intro hc acc hvalid hext
      obtain ⟨t, ht⟩ := hext
      have hr : r < h.length := hvalid r (by simp)
      have hcell : readCell hc r = readCell h r := by
        rw [ht]
        exact readCell_append t hr
      rw [qlTypeLoop_step, multiSeriesSpec_cons, hcell]
      rcases hq : from_quantumleap_format
          (.jobj (ainsert (readCell h r) "entityType" etype)) with m | series
      · rfl
      · exact ih (hc ++ [ainsert (readCell h r) "entityType" etype]) _
          (fun r₂ hr₂ => hvalid r₂ (List.mem_cons_of_mem _ hr₂))
          ⟨t ++ [ainsert (readCell h r) "entityType" etype],
            by rw [ht, List.append_assoc]⟩

theorem qlTypeLoop_nodup (etype : JVal) :
    ∀ (refs : List Ref) (hc : Heap) (acc : List (JVal × EntitySeries))
      (m : List (JVal × EntitySeries)),
      (qlTypeLoop etype refs hc acc).2 = .ok m →
      (acc.map Prod.fst).Nodup → (m.map Prod.fst).Nodup := by
  intro refs
  induction refs with
  | nil =>
      intro hc acc m hm hn
      have h₂ : (Except.ok acc : Except String (List (JVal × EntitySeries))) =
          .ok m := hm
      cases h₂
      exact hn
  | cons r rest ih =>
      intro hc acc m hm hn
      rw [qlTypeLoop_step] at hm
      rcases hq : from_quantumleap_format
          (.jobj (ainsert (readCell hc r) "entityType" etype)) with m₂ | series <;>
        rw [hq] at hm
      · exact absurd hm (by simp)
      · exact ih _ _ m hm (ainsert_keys_nodup hn _ _)

/-- C8: the result of `from_quantumleap_type_format` coincides with its
pure specification — one mapping entry per `entityId` (defaulting to
the empty string when the id is missing, last write winning), each
value being `from_quantumleap_format` of the entity entry with the
shared `entityType` injected into a top-level copy — and a successful
result never carries duplicate keys.  The hypotheses restrict to the
wire shape: the entity references point into the caller's heap and
`entityId`, when present, is a string (CPython would use the raw value
as a dict key; key equality beyond strings is not modelled). -/
theorem from_ql_type_format_spec (h : Heap) (doc : PyDict) (refs : List Ref)
    (hvalid : ∀ r ∈ refs, r < h.length)
    (hid : ∀ r ∈ refs, alookup (readCell h r) "entityId" = none ∨
      ∃ i, alookup (readCell h r) "entityId" = some (.jstr i)) :
    (from_quantumleap_type_format h doc refs).2 =
      multiSeriesSpec h ((alookup doc "entityType").getD (.jstr "")) refs []
  ∧ (∀ m, (from_quantumleap_type_format h doc refs).2 = .ok m →
      (m.map Prod.fst).Nodup) := by
  constructor
  · exact qlTypeLoop_refines _ h refs h [] hvalid ⟨[], by simp⟩
  · intro m hm
    exact qlTypeLoop_nodup _ refs h [] m hm (by simp)

/-- C8 witness: one `Bot` entity behind reference 0. -/
theorem from_ql_type_format_spec_witness :
    (from_quantumleap_type_format [[("entityId", .jstr "e1")]]
        [("entityType", .jstr "Bot")] [0]).2 =
      multiSeriesSpec [[("entityId", .jstr "e1")]]
        ((alookup [("entityType", JVal.jstr "Bot")] "entityType").getD
          (.jstr "")) [0] []
  ∧ (∀ m, (from_quantumleap_type_format [[("entityId", .jstr "e1")]]
        [("entityType", .jstr "Bot")] [0]).2 = .ok m →
      (m.map Prod.fst).Nodup) :=
  from_ql_type_format_spec [[("entityId", .jstr "e1")]]
    [("entityType", .jstr "Bot")] [0]
    (by decide)
    (by
      intro r hr
      rw [List.mem_singleton] at hr
      subst hr
      exact Or.inr ⟨"e1", rfl⟩)

/-- C9: after `from_quantumleap_type_format` runs, the caller's heap is
only ever extended — every dict object that existed before the call is
bit-for-bit unchanged, so no `entityType` key has been added to any of
the caller's per-entity dicts (the loop writes only into fresh
top-level copies).  The top-level query document is read, never
written, and is passed by value. -/
theorem from_ql_type_format_frame (h : Heap) (doc : PyDict)
    (refs : List Ref) :
    (∃ t, (from_quantumleap_type_format h doc refs).1 = h ++ t)
  ∧ (∀ r, r < h.length →
      readCell (from_quantumleap_type_format h doc refs).1 r = readCell h r) := by
  obtain ⟨t, ht⟩ := qlTypeLoop_extends
    ((alookup doc "entityType").getD (.jstr "")) refs h []
  refine ⟨⟨t, ht⟩, ?_⟩
  intro r hr
  rw [show (from_quantumleap_type_format h doc refs).1 = h ++ t from ht]
  exact readCell_append t hr

/-- C9 witness: the caller's single entity dict is unchanged by the
call. -/
theorem from_ql_type_format_frame_witness :
    readCell (from_quantumleap_type_format [[("entityId", .jstr "e2")]]
      [("entityType", .jstr "Bot")] [0]).1 0 =
    readCell [[("entityId", .jstr "e2")]] 0 :=
  (from_ql_type_format_frame [[("entityId", .jstr "e2")]]
    [("entityType", .jstr "Bot")] [0]).2 0 (by decide)

end Fipy
